import Mathlib

/-!
# Verification of the `deno_fmt` core against its specification

This file gives a shallow embedding, in Lean 4, of the core of the
`deno_fmt` TypeScript library (formatter façade, CLI/WASM formatting
contexts, option normalisation, canonical cache keys, and the `LRU`
cache with TTL), together with theorems settling a list of claims made
by the natural-language specification of the library.

Conventions of the embedding:
* JavaScript `Map` objects are modelled as insertion-ordered association
  lists; `Map.set` on an existing key updates the value in place without
  changing the key's position (as the JS specification requires), and
  iteration order is the list order.
* `Date.now()` is modelled by an explicit `now : Nat` argument threaded
  through each operation.  JS computes `now - timestamp > timeout` with
  possibly-negative subtraction; since `timeout ≥ 0` always holds, the
  truncated `Nat` subtraction used here agrees with JS whenever
  `timestamp ≤ now`, and both sides yield `false` otherwise.
* Code that can `throw` is modelled with `Except JSError`.
* Observer callbacks (`onremove`) are modelled by returning the list of
  invocations an operation performs, in order.
-/

set_option autoImplicit false

namespace DenoFmt

/-- The JS error classes thrown by the embedded code. -/
inductive JSError where
  | referenceError (msg : String)
  | rangeError (msg : String)
  | typeError (msg : String)
  | error (msg : String)
  | permissionDenied (msg : String)
  deriving Repr, DecidableEq

/-- One invocation of the `onremove` callback of the LRU cache:
the JS code calls `onremove(value, key, time)`; `value` and `time` are
`none` when the JS code passes `undefined` (as `LRU.delete` does for an
absent key). -/
structure RemoveEv (T : Type) where
  value : Option T
  key : String
  time : Option Nat
  deriving Repr, DecidableEq

/-- State of a `turtll` LRU cache (src/lru.ts, bundled in options.ts):
the backing `Map` as an insertion-ordered association list of
`key ↦ (value, timestamp)`, the TTL (`#timeout`, ms), the capacity
bound (`#capacity`), and the disposal flag (`#disposed`). -/
structure LRUState (T : Type) where
  entries : List (String × T × Nat)
  timeout : Nat
  capacity : Nat
  disposed : Bool
  deriving Repr, DecidableEq

/-- A fresh cache, as built by the `LRU` constructor from a capacity and
timeout (callback options are modelled by the event lists). -/
def mkLRU (T : Type) (capacity timeout : Nat) : LRUState T :=
  { entries := [], timeout := timeout, capacity := capacity, disposed := false }

/-- `Map.prototype.get`: first entry with the given key. -/
def lookupEntry {T : Type} : List (String × T × Nat) → String → Option (T × Nat)
  | [], _ => none
  | e :: rest, k => if e.1 = k then some e.2 else lookupEntry rest k

/-- `Map.prototype.set` on a key known to be present: update the value in
place, keeping the entry's position in iteration order. -/
def updateEntry {T : Type} : List (String × T × Nat) → String → T × Nat →
    List (String × T × Nat)
  | [], _, _ => []
  | e :: rest, k, v => if e.1 = k then (k, v) :: rest else e :: updateEntry rest k v

/-- `Map.prototype.delete`: remove the entry with the given key (keys are
unique in a `Map`, so removing the first occurrence is exact). -/
def removeEntry {T : Type} : List (String × T × Nat) → String → List (String × T × Nat)
  | [], _ => []
  | e :: rest, k => if e.1 = k then rest else e :: removeEntry rest k

/-- `Map.prototype.set` in general: update in place if the key is present,
else append at the end of the iteration order. -/
def setEntry {T : Type} (l : List (String × T × Nat)) (k : String) (v : T × Nat) :
    List (String × T × Nat) :=
  if (lookupEntry l k).isSome then updateEntry l k v else l ++ [(k, v.1, v.2)]

/-- `LRU.prototype.get` (options.ts:2941-2957).  Throws a `ReferenceError`
if disposed.  On a present entry: if `now - timestamp > timeout`, the
entry is deleted, `onremove(value, key, timestamp)` fires and the result
is `undefined`; otherwise the timestamp is refreshed in place (a JS
`Map.set` on an existing key does not reorder) and the value returned.
The `onrefresh` invocation of the fresh path is not tracked. -/
def lruGet {T : Type} (c : LRUState T) (k : String) (now : Nat) :
    Except JSError (Option T × LRUState T × List (RemoveEv T)) :=
  if c.disposed then .error (.referenceError "Object has been disposed.") else
  match lookupEntry c.entries k with
  | none => .ok (none, c, [])
  | some (v, ts) =>
    if now - ts > c.timeout then
      .ok (none, { c with entries := removeEntry c.entries k },
        [{ value := some v, key := k, time := some ts }])
    else
      .ok (some v, { c with entries := updateEntry c.entries k (v, now) }, [])

/-- `LRU.prototype.set` (options.ts:2965-2981).  Throws a `ReferenceError`
if disposed; a no-op when `capacity ≤ 0`.  When `size ≥ capacity` the
first entry of the iteration order is evicted (with an `onremove` call)
-- but only if its key is truthy, i.e. not the empty string, because the
JS guard is `if (entry && entry[0] && entry[1])`.  The new entry is then
stored with the current timestamp. -/
def lruSet {T : Type} (c : LRUState T) (k : String) (v : T) (now : Nat) :
    Except JSError (LRUState T × List (RemoveEv T)) :=
  if c.disposed then .error (.referenceError "Object has been disposed.") else
  if c.capacity ≤ 0 then .ok (c, []) else
  let step :
      List (String × T × Nat) × List (RemoveEv T) :=
    if c.capacity ≤ c.entries.length then
      match c.entries with
      | [] => (c.entries, [])
      | (k0, v0, t0) :: rest =>
        if k0 = "" then (c.entries, [])
        else (rest, [{ value := some v0, key := k0, time := some t0 }])
    else (c.entries, [])
  .ok ({ c with entries := setEntry step.1 k (v, now) }, step.2)

/-- `LRU.prototype.delete` (options.ts:2987-2993).  Throws a
`ReferenceError` if disposed.  Note the source destructures
`this.#map.get(key) ?? []` and then calls `onremove` unconditionally:
the callback fires exactly once per call, with `undefined` value and
timestamp when the key is absent.  The boolean result is that of
`Map.prototype.delete`. -/
def lruDelete {T : Type} (c : LRUState T) (k : String) :
    Except JSError (Bool × LRUState T × List (RemoveEv T)) :=
  if c.disposed then .error (.referenceError "Object has been disposed.") else
  let found := lookupEntry c.entries k
  .ok (found.isSome, { c with entries := removeEntry c.entries k },
    [{ value := found.map Prod.fst, key := k, time := found.map Prod.snd }])

/-- `LRU.prototype.clear` (options.ts:2996-2998): `this.#map.clear()`.
There is no disposal check and the body cannot throw, so the operation is
total. -/
def lruClear {T : Type} (c : LRUState T) : LRUState T :=
  { c with entries := [] }

/-- The loop body of `LRU.#prune` (options.ts:2875-2886): iterate over a
snapshot of the entries (deleting only the entry being visited, which is
safe during JS `Map` iteration and equivalent to iterating a snapshot),
deleting any entry that is expired or while the map is still at or above
capacity.  `this.delete` rechecks the disposal flag and fires
`onremove`. -/
def pruneGo {T : Type} (now : Nat) :
    List (String × T × Nat) → LRUState T →
    Except JSError (LRUState T × List (RemoveEv T))
  | [], c => .ok (c, [])
  | (k, _, ts) :: rest, c =>
    if now - ts > c.timeout ∨ c.capacity ≤ c.entries.length then
      match lruDelete c k with
      | .error e => .error e
      | .ok (_, c1, evs) =>
        match pruneGo now rest c1 with
        | .error e => .error e
        | .ok (c2, evs2) => .ok (c2, evs ++ evs2)
    else pruneGo now rest c

/-- `LRU.#prune`: prune the live map. -/
def lruPrune {T : Type} (c : LRUState T) (now : Nat) :
    Except JSError (LRUState T × List (RemoveEv T)) :=
  pruneGo now c.entries c

/-- The `capacity` setter (options.ts:2893-2901): a `RangeError` for a
negative (or non-numeric) argument, otherwise store the new bound and run
a prune pass.  There is no disposal check. -/
def lruSetCapacity {T : Type} (c : LRUState T) (n : Int) (now : Nat) :
    Except JSError (LRUState T × List (RemoveEv T)) :=
  if n < 0 then .error (.rangeError "capacity must be a positive number")
  else lruPrune { c with capacity := n.toNat } now

/-- The `timeout` setter (options.ts:2913-2924): a `RangeError` for a
negative or non-integer argument, otherwise store the new TTL and run a
prune pass.  There is no disposal check. -/
def lruSetTimeout {T : Type} (c : LRUState T) (n : Int) (now : Nat) :
    Except JSError (LRUState T × List (RemoveEv T)) :=
  if n < 0 then .error (.rangeError "timeout must be a non-negative integer")
  else lruPrune { c with timeout := n.toNat } now

/-- `LRU[Symbol.dispose]` (options.ts:3080-3086): idempotent; sets the
flag, fires `ondispose` (not tracked here) and clears the map without
per-entry `onremove` calls. -/
def lruDispose {T : Type} (c : LRUState T) : LRUState T :=
  if c.disposed then c else { c with entries := [], disposed := true }

/-- A sequence of `set` operations, each given as `(key, value, now)`;
the emitted `onremove` invocations are concatenated in order. -/
def lruSetMany {T : Type} (c : LRUState T) :
    List (String × T × Nat) → Except JSError (LRUState T × List (RemoveEv T))
  | [] => .ok (c, [])
  | (k, v, now) :: rest =>
    match lruSet c k v now with
    | .error e => .error e
    | .ok (c1, evs) =>
      match lruSetMany c1 rest with
      | .error e => .error e
      | .ok (c2, evs2) => .ok (c2, evs ++ evs2)

/-- A sequence of `get` operations, each given as `(key, now)`. -/
def lruGetMany {T : Type} (c : LRUState T) :
    List (String × Nat) → Except JSError (LRUState T × List (RemoveEv T))
  | [] => .ok (c, [])
  | (k, now) :: rest =>
    match lruGet c k now with
    | .error e => .error e
    | .ok (_, c1, evs) =>
      match lruGetMany c1 rest with
      | .error e => .error e
      | .ok (c2, evs2) => .ok (c2, evs ++ evs2)

/-- The key/value projection of a map entry (forgetting the timestamp). -/
def entryKV {T : Type} (e : String × T × Nat) : String × T := (e.1, e.2.1)

/-- The key/value projection of an `onremove` invocation (forgetting the
timestamp argument): which entry was evicted. -/
def evKV {T : Type} (ev : RemoveEv T) : Option T × String := (ev.value, ev.key)

section LRULemmas

variable {T : Type}

theorem lookupEntry_eq_none_iff (l : List (String × T × Nat)) (k : String) :
    lookupEntry l k = none ↔ ∀ e ∈ l, e.1 ≠ k := by
  induction l with
  | nil => simp [lookupEntry]
  | cons e rest ih =>
    by_cases h : e.1 = k
    · simp [lookupEntry, h]
    · simp [lookupEntry, h, ih]

theorem lookupEntry_append_of_none {l1 l2 : List (String × T × Nat)} {k : String}
    (h : lookupEntry l1 k = none) :
    lookupEntry (l1 ++ l2) k = lookupEntry l2 k := by
  induction l1 with
  | nil => simp
  | cons e rest ih =>
    by_cases he : e.1 = k
    · simp [lookupEntry, he] at h
    · simp only [lookupEntry, he] at h
      simp [lookupEntry, he, ih h]

theorem removeEntry_of_none {l : List (String × T × Nat)} {k : String}
    (h : lookupEntry l k = none) : removeEntry l k = l := by
  induction l with
  | nil => rfl
  | cons e rest ih =>
    by_cases he : e.1 = k
    · simp [lookupEntry, he] at h
    · simp only [lookupEntry, he] at h
      simp [removeEntry, he, ih h]

theorem setEntry_of_none {l : List (String × T × Nat)} {k : String}
    (h : lookupEntry l k = none) (v : T × Nat) :
    setEntry l k v = l ++ [(k, v.1, v.2)] := by
  simp [setEntry, h]

theorem updateEntry_map_kv {l : List (String × T × Nat)} {k : String} {v : T}
    {ts : Nat} (h : lookupEntry l k = some (v, ts)) (now : Nat) :
    (updateEntry l k (v, now)).map entryKV = l.map entryKV := by
  induction l with
  | nil => rfl
  | cons e rest ih =>
    by_cases he : e.1 = k
    · have h2 : e.2 = (v, ts) := by simpa [lookupEntry, he] using h
      simp [updateEntry, he, entryKV, h2]
    · simp only [lookupEntry, he] at h
      simp [updateEntry, he, ih h]

/-- Filling a cache that will not reach capacity: each `set` with a fresh
key appends an entry and fires no `onremove`. -/
theorem lruSetMany_fill :
    ∀ (ops : List (String × T × Nat)) (c : LRUState T),
    c.disposed = false →
    c.entries.length + ops.length ≤ c.capacity →
    (∀ e ∈ ops, lookupEntry c.entries e.1 = none) →
    (ops.map (fun e => e.1)).Nodup →
    lruSetMany c ops = .ok ({ c with entries := c.entries ++ ops }, [])
  | [], c, _, _, _, _ => by simp [lruSetMany]
  | (k, v, now) :: rest, c, hd, hlen, habs, hnd => by
    have hne0 : ¬ c.capacity ≤ 0 := by
      simp only [List.length_cons] at hlen; omega
    have hnev : ¬ c.capacity ≤ c.entries.length := by
      simp only [List.length_cons] at hlen; omega
    have hk : lookupEntry c.entries k = none := habs (k, v, now) (by simp)
    have hstep : lruSet c k v now =
        .ok ({ c with entries := c.entries ++ [(k, v, now)] }, []) := by
      simp [lruSet, hd, hne0, hnev, setEntry_of_none hk]
    have hmap : List.map (fun e => e.1) ((k, v, now) :: rest) =
        k :: rest.map (fun e => e.1) := rfl
    rw [hmap] at hnd
    have hnd1 : (rest.map (fun e => e.1)).Nodup := hnd.of_cons
    have hknot : k ∉ rest.map (fun e => e.1) := (List.nodup_cons.mp hnd).1
    have hknotin : ∀ e ∈ rest, ¬ k = e.1 := by
      intro e he hek
      exact hknot (by exact hek ▸ List.mem_map.mpr ⟨e, he, rfl⟩)
    have habs1 : ∀ e ∈ rest,
        lookupEntry (c.entries ++ [(k, v, now)]) e.1 = none := by
      intro e he
      rw [lookupEntry_append_of_none (habs e (by simp [he]))]
      simp [lookupEntry, hknotin e he]
    have hlen1 : (c.entries ++ [(k, v, now)]).length + rest.length ≤
        c.capacity := by
      have hlen2 := hlen
      simp only [List.length_cons] at hlen2
      simp only [List.length_append, List.length_cons, List.length_nil]
      omega
    have ih := lruSetMany_fill rest
      { c with entries := c.entries ++ [(k, v, now)] } hd hlen1 habs1 hnd1
    simp only [lruSetMany, hstep, ih, List.append_assoc, List.singleton_append,
      List.nil_append]

/-- Splitting a sequence of `set` operations. -/
theorem lruSetMany_append {c c1 c2 : LRUState T}
    {l1 l2 : List (String × T × Nat)} {e1 e2 : List (RemoveEv T)}
    (h1 : lruSetMany c l1 = .ok (c1, e1))
    (h2 : lruSetMany c1 l2 = .ok (c2, e2)) :
    lruSetMany c (l1 ++ l2) = .ok (c2, e1 ++ e2) := by
  induction l1 generalizing c e1 with
  | nil =>
    simp only [lruSetMany, Except.ok.injEq, Prod.mk.injEq] at h1
    obtain ⟨hc, he⟩ := h1
    subst hc
    simp [← he, h2]
  | cons op rest ih =>
    obtain ⟨k, v, now⟩ := op
    simp only [lruSetMany] at h1 ⊢
    cases hset : lruSet c k v now with
    | error e => simp [hset] at h1
    | ok r =>
      obtain ⟨cm, evs⟩ := r
      simp only [hset] at h1 ⊢
      cases hrest : lruSetMany cm rest with
      | error e => simp [hrest] at h1
      | ok r2 =>
        obtain ⟨cr, evr⟩ := r2
        simp only [hrest, Except.ok.injEq, Prod.mk.injEq] at h1
        obtain ⟨hc, he⟩ := h1
        subst hc
        subst he
        simp [ih hrest, List.append_assoc]

/-- A `get` that completes without firing `onremove` (a miss, or a hit on a
fresh entry) only refreshes a timestamp in place: the key/value projection
of the map, the TTL, the capacity and the disposal flag are unchanged. -/
theorem lruGet_preserves_kv {c c1 : LRUState T} {k : String} {now : Nat}
    {r : Option T} (h : lruGet c k now = .ok (r, c1, [])) :
    c1.entries.map entryKV = c.entries.map entryKV ∧ c1.timeout = c.timeout ∧
    c1.capacity = c.capacity ∧ c1.disposed = c.disposed := by
  cases hdisp : c.disposed with
  | true => simp [lruGet, hdisp] at h
  | false =>
    rw [lruGet, hdisp] at h
    simp only [Bool.false_eq_true, if_false] at h
    cases hl : lookupEntry c.entries k with
    | none =>
      rw [hl] at h
      simp only [Except.ok.injEq, Prod.mk.injEq] at h
      obtain ⟨-, hc, -⟩ := h
      subst hc
      exact ⟨rfl, rfl, rfl, hdisp⟩
    | some p =>
      obtain ⟨v, ts⟩ := p
      rw [hl] at h
      by_cases hexp : now - ts > c.timeout
      · simp [hexp] at h
      · simp only [hexp, if_false, Except.ok.injEq, Prod.mk.injEq] at h
        obtain ⟨-, hc, -⟩ := h
        subst hc
        exact ⟨updateEntry_map_kv hl now, rfl, rfl, rfl⟩

/-- Iterated version of `lruGet_preserves_kv`. -/
theorem lruGetMany_preserves_kv {gets : List (String × Nat)}
    {c c1 : LRUState T} (h : lruGetMany c gets = .ok (c1, [])) :
    c1.entries.map entryKV = c.entries.map entryKV ∧ c1.timeout = c.timeout ∧
    c1.capacity = c.capacity ∧ c1.disposed = c.disposed := by
  induction gets generalizing c with
  | nil =>
    simp only [lruGetMany, Except.ok.injEq, Prod.mk.injEq] at h
    obtain ⟨hc, -⟩ := h
    subst hc
    exact ⟨rfl, rfl, rfl, rfl⟩
  | cons g rest ih =>
    obtain ⟨k, now⟩ := g
    simp only [lruGetMany] at h
    cases hget : lruGet c k now with
    | error e => simp [hget] at h
    | ok r =>
      obtain ⟨ro, cm, evs⟩ := r
      simp only [hget] at h
      cases hrest : lruGetMany cm rest with
      | error e => simp [hrest] at h
      | ok r2 =>
        obtain ⟨cr, evr⟩ := r2
        simp only [hrest, Except.ok.injEq, Prod.mk.injEq] at h
        obtain ⟨hc, he⟩ := h
        subst hc
        obtain ⟨h1, h2⟩ := List.append_eq_nil.mp he
        subst h1
        have ha := lruGet_preserves_kv hget
        have hb := ih (h2 ▸ hrest)
        exact ⟨hb.1.trans ha.1, hb.2.1.trans ha.2.1, hb.2.2.1.trans ha.2.2.1,
          hb.2.2.2.trans ha.2.2.2⟩

/-- The key/value projection of the eviction decision taken by `set` on a
non-disposed cache, as a function of the capacity and of the key/value
projection of the map. -/
def setEvsKV (cap : Nat) (kvs : List (String × T)) : List (Option T × String) :=
  if cap ≤ 0 then [] else
  if cap ≤ kvs.length then
    match kvs with
    | [] => []
    | (k0, v0) :: _ => if k0 = "" then [] else [(some v0, k0)]
  else []

/-- The `onremove` invocations of `set` (up to the timestamp argument)
depend only on the capacity and the key/value projection of the map. -/
theorem lruSet_evs_eq_setEvsKV {c : LRUState T} {k : String} {v : T}
    {now : Nat} {st : LRUState T} {evs : List (RemoveEv T)}
    (hdisp : c.disposed = false)
    (h : lruSet c k v now = .ok (st, evs)) :
    evs.map evKV = setEvsKV c.capacity (c.entries.map entryKV) := by
  rw [lruSet, hdisp] at h
  simp only [Bool.false_eq_true, if_false] at h
  by_cases hc0 : c.capacity ≤ 0
  · simp only [hc0, if_true, Except.ok.injEq, Prod.mk.injEq] at h
    rw [← h.2]
    simp [setEvsKV, hc0]
  · simp only [hc0, if_false, Except.ok.injEq, Prod.mk.injEq] at h
    by_cases hfull : c.capacity ≤ c.entries.length
    · cases hent : c.entries with
      | nil =>
        rw [hent] at h
        simp only [List.length_nil, hent ▸ hfull, if_true] at h
        rw [← h.2]
        simp only [hent] at hfull
        simp [setEvsKV, hc0, hfull, List.map_nil]
      | cons e0 rest =>
        obtain ⟨k0, v0, t0⟩ := e0
        rw [hent] at h
        rw [hent] at hfull
        simp only [hfull, if_true] at h
        by_cases hk0 : k0 = ""
        · rw [if_pos hk0] at h
          rw [← h.2]
          simp only [setEvsKV, hc0, if_false, List.map_cons, List.length_map,
            List.length_cons, entryKV]
          rw [if_pos (by simpa using hfull), if_pos hk0]
          rfl
        · rw [if_neg hk0] at h
          rw [← h.2]
          simp only [setEvsKV, hc0, if_false, List.map_cons, List.length_map,
            List.length_cons, entryKV]
          rw [if_pos (by simpa using hfull), if_neg hk0]
          simp [evKV]
    · rw [if_neg hfull] at h
      rw [← h.2]
      simp only [setEvsKV, hc0, if_false, List.length_map]
      rw [if_neg hfull]
      rfl

/-- The eviction performed by `set` depends only on the key/value projection
of the map (plus capacity and the disposal flag): two states agreeing on
those evict the same entry (same key and value; the timestamp argument of
`onremove` may differ). -/
theorem lruSet_evs_kv_eq {c c' : LRUState T}
    (hkv : c'.entries.map entryKV = c.entries.map entryKV)
    (hcap : c'.capacity = c.capacity) (hdisp : c'.disposed = c.disposed)
    (k : String) (v : T) (now now' : Nat) {st st' : LRUState T}
    {evs evs' : List (RemoveEv T)}
    (h1 : lruSet c k v now = .ok (st, evs))
    (h2 : lruSet c' k v now' = .ok (st', evs')) :
    evs.map evKV = evs'.map evKV := by
  cases hd : c.disposed with
  | true => rw [lruSet, hd] at h1; simp at h1
  | false =>
    rw [lruSet_evs_eq_setEvsKV hd h1,
      lruSet_evs_eq_setEvsKV (hdisp.trans hd) h2, hkv, hcap]

end LRULemmas

/-- Claim C5, counterexample.  The claim states that `capacity + 1` sets with
pairwise distinct keys on a fresh cache of capacity `C` always cause exactly
one `onremove` invocation and leave the size equal to `C`.  Two concrete
refutations: (1) with `C = 0`, `set` is a no-op, so zero evictions occur
instead of one; (2) with `C = 1` and the distinct keys `""` and `"x"`, the
eviction guard `if (entry && entry[0] && entry[1])` treats the falsy key
`""` as "no entry", so no eviction happens and the final size is `2 ≠ 1`
(and zero `onremove` invocations occur). -/
theorem claim_C5_counterexample :
    lruSetMany (mkLRU String 0 30000) [("a", "v", 0)] =
      .ok (mkLRU String 0 30000, []) ∧
    lruSetMany (mkLRU String 1 30000) [("", "v0", 0), ("x", "v1", 1)] =
      .ok ({ entries := [("", "v0", 0), ("x", "v1", 1)], timeout := 30000,
             capacity := 1, disposed := false }, []) ∧
    ([("", "v0", 0), ("x", "v1", 1)] : List (String × String × Nat)).length = 2 :=
  ⟨rfl, rfl, rfl⟩

/-- Claim C5, amended: for every capacity `C ≥ 1` and every sequence of
`C + 1` `set` operations with pairwise distinct *non-empty* keys on a fresh
cache of capacity `C`, exactly one eviction occurs (`onremove` is invoked
exactly once by those sets) and the cache's size afterwards equals `C`.
(The original claim fails for `C = 0` and for an oldest entry whose key is
the empty string; see `claim_C5_counterexample`.) -/
theorem claim_C5 (T : Type) (C tmo : Nat) (hC : 1 ≤ C)
    (ops : List (String × T × Nat))
    (hlen : ops.length = C + 1)
    (hnd : (ops.map (fun e => e.1)).Nodup)
    (hne : ∀ e ∈ ops, e.1 ≠ "") :
    (lruSetMany (mkLRU T C tmo) ops).toOption.map
      (fun r => (r.1.entries.length, r.2.length)) = some (C, 1) := by
  have hne0 : ops ≠ [] := by
    intro h
    rw [h] at hlen
    simp at hlen
  obtain ⟨init, lastE, rfl⟩ : ∃ init lastE, ops = init ++ [lastE] :=
    ⟨ops.dropLast, ops.getLast hne0, (List.dropLast_append_getLast hne0).symm⟩
  obtain ⟨k, v, now⟩ := lastE
  have hinitlen : init.length = C := by
    simp only [List.length_append, List.length_cons, List.length_nil] at hlen
    omega
  have hmapapp : List.map (fun e => e.1) (init ++ [(k, v, now)]) =
      init.map (fun e => e.1) ++ [k] := by simp
  rw [hmapapp] at hnd
  have hndinit : (init.map (fun e => e.1)).Nodup := hnd.of_append_left
  have hkdisj : k ∉ init.map (fun e => e.1) := by
    intro hk
    exact (List.disjoint_of_nodup_append hnd) hk (by simp)
  have hfill := lruSetMany_fill init (mkLRU T C tmo) rfl
    (by simp [mkLRU, hinitlen]) (fun e _ => rfl) hndinit
  cases hi : init with
  | nil => rw [hi] at hinitlen; simp at hinitlen; omega
  | cons e0 rest0 =>
    obtain ⟨k0, v0, t0⟩ := e0
    rw [hi] at hfill hinitlen hkdisj
    have hk0ne : ¬ k0 = "" := hne (k0, v0, t0) (by simp [hi])
    have hkrest : lookupEntry rest0 k = none := by
      rw [lookupEntry_eq_none_iff]
      intro e he hek
      apply hkdisj
      simp only [List.map_cons, List.mem_cons]
      exact Or.inr (List.mem_map.mpr ⟨e, he, hek⟩)
    have hrest0len : rest0.length + 1 = C := by
      simpa using hinitlen
    have hsetlast :
        lruSet { mkLRU T C tmo with
                   entries := (mkLRU T C tmo).entries ++
                     ((k0, v0, t0) :: rest0) } k v now =
          .ok ({ entries := rest0 ++ [(k, v, now)], timeout := tmo,
                 capacity := C, disposed := false },
            [{ value := some v0, key := k0, time := some t0 }]) := by
      rw [lruSet]
      simp only [mkLRU, List.nil_append]
      rw [if_neg (by simp)]
      rw [if_neg (by omega)]
      simp only [List.length_cons, hrest0len]
      rw [if_pos (by omega), if_neg hk0ne, setEntry_of_none hkrest]
    have hsingle :
        lruSetMany ({ mkLRU T C tmo with
                        entries := (mkLRU T C tmo).entries ++
                          ((k0, v0, t0) :: rest0) }) [(k, v, now)] =
          .ok ({ entries := rest0 ++ [(k, v, now)], timeout := tmo,
                 capacity := C, disposed := false },
            [{ value := some v0, key := k0, time := some t0 }]) := by
      simp [lruSetMany, hsetlast]
    have happ := lruSetMany_append hfill hsingle
    rw [happ]
    have hfin : (rest0 ++ [(k, v, now)]).length = C := by
      simp only [List.length_append, List.length_cons, List.length_nil]
      omega
    simp [Except.toOption, hfin]

/-- Witness for `claim_C5`: capacity 1, two sets with keys `"a"`, `"b"`:
one eviction, final size 1. -/
theorem claim_C5_witness :
    (lruSetMany (mkLRU String 1 5) [("a", "x", 0), ("b", "y", 1)]).toOption.map
      (fun r => (r.1.entries.length, r.2.length)) = some (1, 1) :=
  claim_C5 String 1 5 (by decide) [("a", "x", 0), ("b", "y", 1)] (by decide)
    (by decide) (by decide)

/-- Claim C6, counterexample.  The claim states that `get` never changes the
eviction victim chosen by a later `set`.  But a `get` that hits a
TTL-expired entry deletes it: on a cache of capacity 1 and TTL 10 holding
`("a", "v")` inserted at time 0, a direct `set("b")` at time 11 evicts
`("a", "v")` (one `onremove` invocation), whereas the same `set` preceded
by `get("a")` at time 11 evicts nothing (the get already removed the
entry), so the victim chosen by the second set differs. -/
theorem claim_C6_counterexample :
    lruSet { entries := [("a", "v", 0)], timeout := 10, capacity := 1,
             disposed := false } "b" "w" 11 =
      .ok ({ entries := [("b", "w", 11)], timeout := 10, capacity := 1,
             disposed := false },
        [{ value := some "v", key := "a", time := some 0 }]) ∧
    lruGet { entries := [("a", "v", 0)], timeout := 10, capacity := 1,
             disposed := false } "a" 11 =
      .ok (none, { entries := [], timeout := 10, capacity := 1,
                   disposed := false },
        [{ value := some "v", key := "a", time := some 0 }]) ∧
    lruSet { entries := [], timeout := 10, capacity := 1,
             disposed := false } "b" "w" 11 =
      .ok ({ entries := [("b", "w", 11)], timeout := 10, capacity := 1,
             disposed := false }, []) :=
  ⟨rfl, rfl, rfl⟩

/-- Claim C6, amended: (1) whenever a `set` evicts an entry, the victim is
the first entry of the map's iteration order (the oldest-inserted one); and
(2) a sequence of `get` operations that fires no `onremove` invocation
(i.e. no get hits a TTL-expired entry) never changes the eviction decision
of a subsequent `set`: the second set evicts in the same cases and evicts
an entry with the same key and value, even though the gets refresh
timestamps.  (The original claim, quantified over *all* get sequences,
fails when a get expires an entry; see `claim_C6_counterexample`.) -/
theorem claim_C6 (T : Type) :
    (∀ (c : LRUState T) (k0 : String) (v0 : T) (t0 : Nat)
       (rest : List (String × T × Nat)) (k : String) (v : T) (now : Nat)
       (st : LRUState T) (evs : List (RemoveEv T)),
       c.entries = (k0, v0, t0) :: rest →
       lruSet c k v now = .ok (st, evs) → evs ≠ [] →
       evs = [{ value := some v0, key := k0, time := some t0 }]) ∧
    (∀ (c c1 : LRUState T) (gets : List (String × Nat)) (k : String) (v : T)
       (now : Nat) (st1 st2 : LRUState T) (evs1 evs2 : List (RemoveEv T)),
       lruGetMany c gets = .ok (c1, []) →
       lruSet c k v now = .ok (st1, evs1) →
       lruSet c1 k v now = .ok (st2, evs2) →
       evs1.map evKV = evs2.map evKV) := by
  constructor
  · intro c k0 v0 t0 rest k v now st evs hent hset hne
    cases hdisp : c.disposed with
    | true => rw [lruSet, hdisp] at hset; simp at hset
    | false =>
      rw [lruSet, hdisp] at hset
      simp only [Bool.false_eq_true, if_false] at hset
      by_cases hc0 : c.capacity ≤ 0
      · rw [if_pos hc0] at hset
        simp only [Except.ok.injEq, Prod.mk.injEq] at hset
        exact absurd hset.2.symm hne
      · rw [if_neg hc0] at hset
        by_cases hfull : c.capacity ≤ c.entries.length
        · rw [hent] at hfull
          simp only [hent, hfull, if_true] at hset
          by_cases hk0 : k0 = ""
          · rw [if_pos hk0] at hset
            simp only [Except.ok.injEq, Prod.mk.injEq] at hset
            exact absurd hset.2.symm hne
          · rw [if_neg hk0] at hset
            simp only [Except.ok.injEq, Prod.mk.injEq] at hset
            exact hset.2.symm
        · rw [hent] at hfull
          simp only [hent, hfull, if_false] at hset
          simp only [Except.ok.injEq, Prod.mk.injEq] at hset
          exact absurd hset.2.symm hne
  · intro c c1 gets k v now st1 st2 evs1 evs2 hgets h1 h2
    obtain ⟨hkv, -, hcap, hdisp⟩ := lruGetMany_preserves_kv hgets
    exact lruSet_evs_kv_eq hkv hcap hdisp k v now now h1 h2

/-- Witness for `claim_C6`, part 1: a concrete `set` at capacity evicts the
first (oldest-inserted) entry of the map. -/
theorem claim_C6_witness :
    ([{ value := some "v", key := "a", time := some 0 }] :
        List (RemoveEv String)) =
      [{ value := some "v", key := "a", time := some 0 }] :=
  (claim_C6 String).1 ⟨[("a", "v", 0)], 10, 1, false⟩ "a" "v" 0 [] "b" "w" 5
    ⟨[("b", "w", 5)], 10, 1, false⟩ [⟨some "v", "a", some 0⟩] rfl rfl
    (List.cons_ne_nil _ _)

/-- Claim C8, counterexample.  The claim states that *every* mutating
operation on a disposed cache fails fast with a reference error.  But
`clear` has no disposal check (it silently succeeds), and the `capacity`
setter also has none: on a disposed cache it actually mutates the bound
and returns normally. -/
theorem claim_C8_counterexample :
    lruClear (lruDispose (mkLRU String 100 30000)) =
      lruDispose (mkLRU String 100 30000) ∧
    lruSetCapacity (lruDispose (mkLRU String 100 30000)) 50 0 =
      .ok ({ entries := [], timeout := 30000, capacity := 50,
             disposed := true }, []) :=
  ⟨rfl, rfl⟩

/-- Claim C8, amended: on a disposed cache, `get`, `set` and `delete` fail
fast with a `ReferenceError`, but `clear` and the runtime `capacity` /
`timeout` setters perform no disposal check: `clear` silently succeeds,
and the setters mutate the bound and run their prune pass (which does
nothing, the entry map being empty after disposal). -/
theorem claim_C8 (T : Type) (c : LRUState T) (k : String) (v : T)
    (now : Nat) (n : Int) (hdisp : c.disposed = true) :
    lruGet c k now = .error (.referenceError "Object has been disposed.") ∧
    lruSet c k v now = .error (.referenceError "Object has been disposed.") ∧
    lruDelete c k = .error (.referenceError "Object has been disposed.") ∧
    lruClear c = { c with entries := [] } ∧
    (c.entries = [] → 0 ≤ n →
      lruSetCapacity c n now = .ok ({ c with capacity := n.toNat }, []) ∧
      lruSetTimeout c n now = .ok ({ c with timeout := n.toNat }, [])) := by
  refine ⟨by rw [lruGet, hdisp]; rfl, by rw [lruSet, hdisp]; rfl,
    by rw [lruDelete, hdisp]; rfl, rfl, ?_⟩
  intro hent hn
  constructor
  · rw [lruSetCapacity, if_neg (by omega), lruPrune]
    simp [hent, pruneGo]
  · rw [lruSetTimeout, if_neg (by omega), lruPrune]
    simp [hent, pruneGo]

/-- Witness for `claim_C8`: a freshly disposed cache rejects `get` but
accepts a capacity mutation. -/
theorem claim_C8_witness :
    lruGet ({ entries := [], timeout := 30000, capacity := 100,
              disposed := true } : LRUState String) "k" 5 =
      .error (.referenceError "Object has been disposed.") ∧
    lruSetCapacity ({ entries := [], timeout := 30000, capacity := 100,
                      disposed := true } : LRUState String) 7 5 =
      .ok ({ entries := [], timeout := 30000, capacity := 7,
             disposed := true }, []) :=
  ⟨(claim_C8 String ⟨[], 30000, 100, true⟩ "k" "v" 5 7 rfl).1,
   ((claim_C8 String ⟨[], 30000, 100, true⟩ "k" "v" 5 7 rfl).2.2.2.2
      rfl (by decide)).1⟩

/-- Claim C9: on a non-disposed cache, `delete(k)` invokes `onremove`
exactly once even when `k` is absent (in which case `onremove` receives
`undefined` for both the value and the timestamp); only the boolean
return value indicates whether an entry was actually removed. -/
theorem claim_C9 (T : Type) (c : LRUState T) (k : String)
    (hdisp : c.disposed = false) :
    lruDelete c k = .ok ((lookupEntry c.entries k).isSome,
      { c with entries := removeEntry c.entries k },
      [{ value := (lookupEntry c.entries k).map Prod.fst, key := k,
         time := (lookupEntry c.entries k).map Prod.snd }]) ∧
    (lookupEntry c.entries k = none →
      lruDelete c k = .ok (false, c,
        [{ value := none, key := k, time := none }])) := by
  constructor
  · rw [lruDelete, hdisp]
    rfl
  · intro habs
    rw [lruDelete, if_neg (by rw [hdisp]; simp)]
    simp [habs, removeEntry_of_none habs]

/-- Witness for `claim_C9`: deleting an absent key still fires `onremove`
once, with `undefined` value and timestamp, and returns `false`. -/
theorem claim_C9_witness :
    lruDelete ({ entries := [("a", "v", 3)], timeout := 100, capacity := 10,
                 disposed := false } : LRUState String) "b" =
      .ok (false, { entries := [("a", "v", 3)], timeout := 100,
                    capacity := 10, disposed := false },
        [{ value := none, key := "b", time := none }]) :=
  (claim_C9 String ⟨[("a", "v", 3)], 100, 10, false⟩ "b" rfl).2 rfl

/-!
## The option model (src/options.ts)

`Options` instances have exactly the eleven schema fields: the class
constructor spreads the caller object over `Options.default` into the
private `#options` record, and the surrounding proxy exposes exactly the
eleven accessor keys (in the constructor's `keys` order) to enumeration
and JSON serialisation; caller-supplied extra keys are never visible.
-/

/-- A JavaScript number argument: an integral double, or a non-integral
value (`NaN` and `±Infinity` behave identically in every function
modelled here: `x >>> 0` yields `0`, and the
`typeof x === "number" && !isNaN(x) && Number.isInteger(x)` guard of
`Options.normalize` is false). -/
inductive JsNum where
  | int (n : Int)
  | nan
  deriving Repr, DecidableEq

/-- ECMAScript `ToUint32`, i.e. the value of the expression `x >>> 0`. -/
def toUint32 : JsNum → Nat
  | .nan => 0
  | .int n => (n % (2 ^ 32)).toNat

/-- The `ext` option values admitted by `Options.allowed.ext`. -/
inductive Ext where
  | ts | js | jsx | tsx | json | jsonc | md
  deriving Repr, DecidableEq

/-- The canonical (lower-case) string of an `ext` value. -/
def Ext.str : Ext → String
  | .ts => "ts"
  | .js => "js"
  | .jsx => "jsx"
  | .tsx => "tsx"
  | .json => "json"
  | .jsonc => "jsonc"
  | .md => "md"

/-- The `proseWrap` option values admitted by `Options.allowed.proseWrap`. -/
inductive ProseWrap where
  | always | never | preserve
  deriving Repr, DecidableEq

/-- The canonical string of a `proseWrap` value. -/
def ProseWrap.str : ProseWrap → String
  | .always => "always"
  | .never => "never"
  | .preserve => "preserve"

/-- The `config` option: a boolean or a configuration-file path. -/
inductive ConfigOpt where
  | bool (b : Bool)
  | path (s : String)
  deriving Repr, DecidableEq

/-- The record stored in `Options.#options`: exactly the eleven schema
fields.  The width fields hold whatever JS number the caller supplied
(the constructor does not validate). -/
structure OptionsRec where
  check : Bool
  config : ConfigOpt
  cwd : String
  ext : Ext
  ignore : List String
  indentWidth : JsNum
  lineWidth : JsNum
  proseWrap : ProseWrap
  semiColons : Bool
  singleQuote : Bool
  useTabs : Bool
  deriving Repr, DecidableEq

/-- `Options.default` (options.ts:577-589). -/
def defaultRec : OptionsRec :=
  { check := false, config := .bool true, cwd := "", ext := .ts, ignore := [],
    indentWidth := .int 2, lineWidth := .int 80, proseWrap := .always,
    semiColons := true, singleQuote := false, useTabs := false }

/-- The names of the eleven schema fields. -/
inductive OptKey where
  | check | config | cwd | ext | ignore | indentWidth | lineWidth
  | proseWrap | semiColons | singleQuote | useTabs
  deriving Repr, DecidableEq

/-- One field of a caller-supplied override object (a JS object being a
sequence of key/value properties in insertion order). -/
inductive OptField where
  | check (b : Bool)
  | config (c : ConfigOpt)
  | cwd (s : String)
  | ext (e : Ext)
  | ignore (l : List String)
  | indentWidth (n : JsNum)
  | lineWidth (n : JsNum)
  | proseWrap (p : ProseWrap)
  | semiColons (b : Bool)
  | singleQuote (b : Bool)
  | useTabs (b : Bool)
  deriving Repr, DecidableEq

/-- The property name of an override field. -/
def OptField.key : OptField → OptKey
  | .check _ => .check
  | .config _ => .config
  | .cwd _ => .cwd
  | .ext _ => .ext
  | .ignore _ => .ignore
  | .indentWidth _ => .indentWidth
  | .lineWidth _ => .lineWidth
  | .proseWrap _ => .proseWrap
  | .semiColons _ => .semiColons
  | .singleQuote _ => .singleQuote
  | .useTabs _ => .useTabs

/-- Property lookup on a JS object: its keys are distinct, so the first
matching property is the property. -/
def findField : List OptField → OptKey → Option OptField
  | [], _ => none
  | f :: rest, k => if f.key = k then some f else findField rest k

/-- The combination performed by `Options.merge(options, fallbacks)`
(options.ts:250-262) followed by the `Options` constructor spread
`{ ...Options.default, ...options }`: each schema field takes the
override's value when the override object has that key, and the base
value otherwise. -/
def getOverride (l : List OptField) (base : OptionsRec) : OptionsRec where
  check := match findField l .check with | some (.check b) => b | _ => base.check
  config := match findField l .config with | some (.config c) => c | _ => base.config
  cwd := match findField l .cwd with | some (.cwd s) => s | _ => base.cwd
  ext := match findField l .ext with | some (.ext e) => e | _ => base.ext
  ignore := match findField l .ignore with | some (.ignore i) => i | _ => base.ignore
  indentWidth := match findField l .indentWidth with
    | some (.indentWidth n) => n | _ => base.indentWidth
  lineWidth := match findField l .lineWidth with
    | some (.lineWidth n) => n | _ => base.lineWidth
  proseWrap := match findField l .proseWrap with
    | some (.proseWrap p) => p | _ => base.proseWrap
  semiColons := match findField l .semiColons with
    | some (.semiColons b) => b | _ => base.semiColons
  singleQuote := match findField l .singleQuote with
    | some (.singleQuote b) => b | _ => base.singleQuote
  useTabs := match findField l .useTabs with
    | some (.useTabs b) => b | _ => base.useTabs

/-- The clamped value stored by the `indentWidth` setter
(options.ts:743-749): `Math.min(Math.max(x >>> 0, 1), 255)`. -/
def clampIndentWidth (x : JsNum) : Nat :=
  min (max (toUint32 x) 1) 255

/-- The clamped value stored by the `lineWidth` setter
(options.ts:755-759): `Math.min(Math.max(x >>> 0, 1), 2 ** 32 - 1)`. -/
def clampLineWidth (x : JsNum) : Nat :=
  min (max (toUint32 x) 1) (2 ^ 32 - 1)

/-- The `indentWidth` setter: total, never throws; clamps into `[1, 255]`. -/
def setIndentWidth (r : OptionsRec) (x : JsNum) : OptionsRec :=
  { r with indentWidth := .int (clampIndentWidth x) }

/-- The `lineWidth` setter: total, never throws; clamps into
`[1, 2^32 - 1]`. -/
def setLineWidth (r : OptionsRec) (x : JsNum) : OptionsRec :=
  { r with lineWidth := .int (clampLineWidth x) }

/-- The `indentWidth` validation of `Options.normalize`
(options.ts:357-377): a `TypeError` for a non-number / `NaN` /
non-integer value, a `RangeError` for an integer outside `[1, 255]`. -/
def normalizeIndentWidth (x : JsNum) : Except JSError Int :=
  match x with
  | .nan => .error (.typeError
      "[fmt] Expected a positive finite integer for indentWidth.")
  | .int n =>
    if 1 ≤ n ∧ n ≤ 255 then .ok n
    else .error (.rangeError
      "[fmt] Expected a positive finite integer between [1, 255] for indentWidth.")

/-- The `lineWidth` validation of `Options.normalize`
(options.ts:379-399): a `TypeError` for a non-number / `NaN` /
non-integer value, a `RangeError` for an integer outside
`[1, 2^32 - 1]`. -/
def normalizeLineWidth (x : JsNum) : Except JSError Int :=
  match x with
  | .nan => .error (.typeError
      "[fmt] Expected a non-zero integer for lineWidth.")
  | .int n =>
    if 1 ≤ n ∧ n ≤ 2 ^ 32 - 1 then .ok n
    else .error (.rangeError
      "[fmt] Expected a positive integer between [1, 4294967295] for lineWidth.")

/-- Kernel-computable character-level string primitives (the `String`
library functions `startsWith`, `splitOn`, `toLower`, `trim`, `foldl` and
`intercalate` are implemented by iterator loops that do not reduce
definitionally; these structural equivalents do). -/
def isPrefixChars : List Char → List Char → Bool
  | [], _ => true
  | _ :: _, [] => false
  | a :: as, b :: bs => a = b && isPrefixChars as bs

/-- `s.startsWith p`. -/
def strStartsWith (s p : String) : Bool :=
  isPrefixChars p.data s.data

/-- `String.intercalate sep`. -/
def joinSep (sep : String) : List String → String
  | [] => ""
  | [x] => x
  | x :: rest => x ++ sep ++ joinSep sep rest

/-- ASCII lower-casing of one character (`String.toLower` on the ASCII
outputs at hand). -/
def lowerChar (c : Char) : Char :=
  if 65 ≤ c.toNat ∧ c.toNat ≤ 90 then Char.ofNat (c.toNat + 32) else c

/-- Split on newlines (`s.split("\n")` / the line starts that the `m`
regex flag makes `^` match). -/
def splitNl : List Char → List (List Char)
  | [] => [[]]
  | c :: rest =>
    if c = '\n' then [] :: splitNl rest
    else
      match splitNl rest with
      | [] => [[c]]
      | l :: ls => (c :: l) :: ls

/-- ASCII whitespace, for `String.trim`. -/
def isWsp (c : Char) : Bool :=
  c = ' ' || c = '\t' || c = '\n' || c = '\r'

/-- Drop leading whitespace. -/
def dropWsp : List Char → List Char
  | [] => []
  | c :: rest => if isWsp c then dropWsp rest else c :: rest

/-- `String.trim`. -/
def trimStr (s : String) : String :=
  ⟨((dropWsp ((dropWsp s.data.reverse).reverse))).reverse.reverse⟩

/-- Environment-dependent primitives used by the embedded code.  They are
parameters of the embedding: the theorems hold for every instantiation. -/
structure JsEnv where
  /-- The `cwd` resolution of `Options.normalize` (options.ts:309-320):
  `new URL(cwd, baseURL).toString()` against the callsites-derived base. -/
  resolveCwd : String → String
  /-- Whether `new URL(config, import.meta.url)` succeeds for a string
  `config` option (options.ts:297-305). -/
  validConfigURL : String → Bool
  /-- Modelled from the spec: the `Sha256` digest (`src/sha256.ts` is not
  among the provided sources).  Per §4.1 the exact algorithm is not
  load-bearing; the model is the digest as a function of the sequence of
  `update` calls, hex-encoded. -/
  digest : List String → String
  /-- `Options.sanitizePath` (options.ts:230-248): URL-based character
  sanitisation of a path; with the default `Options.filesOnly = false` it
  never throws. -/
  sanitizePath : String → String

/-- `config.toString().replace(/^file:\/\//, "")` (options.ts:306). -/
def dropFileScheme (s : String) : String :=
  if strStartsWith s "file://" then ⟨s.data.drop 7⟩ else s

/-- The `config` normalisation of `Options.normalize`
(options.ts:294-307): boolean-like strings parse to booleans, other
strings must form a valid URL and are stored with a leading `file://`
stripped. -/
def normalizeConfig (env : JsEnv) (c : ConfigOpt) : Except JSError ConfigOpt :=
  match c with
  | .bool b => .ok (.bool b)
  | .path s =>
    let t := trimStr s
    if t = "true" ∨ t = "1" then .ok (.bool true)
    else if t = "false" ∨ t = "0" then .ok (.bool false)
    else if env.validConfigURL s then .ok (.path (dropFileScheme s))
    else .error (.typeError
      "[fmt] Expected either a boolean or valid file path for config.")

/-- `Options.normalize` (options.ts:264-447) on a well-typed record: the
boolean fields, `ext`, `ignore` and `proseWrap` are already in canonical
form; `config` is parsed, `cwd` is resolved against the caller base URL,
and the width fields are validated (the only failing checks). -/
def normalizeRec (env : JsEnv) (r : OptionsRec) : Except JSError OptionsRec :=
  match normalizeConfig env r.config with
  | .error e => .error e
  | .ok cfg =>
    match normalizeIndentWidth r.indentWidth with
    | .error e => .error e
    | .ok iw =>
      match normalizeLineWidth r.lineWidth with
      | .error e => .error e
      | .ok lw =>
        .ok { r with config := cfg, cwd := env.resolveCwd r.cwd,
                     indentWidth := .int iw, lineWidth := .int lw }

/-- A JSON value appearing in the serialised option object. -/
inductive JsonVal where
  | bool (b : Bool)
  | num (n : JsNum)
  | str (s : String)
  | arr (l : List String)
  deriving Repr, DecidableEq

/-- The JSON value of the `config` field. -/
def configJson : ConfigOpt → JsonVal
  | .bool b => .bool b
  | .path s => .str s

/-- The enumerable own properties of an `Options` instance, as serialised
by `JSON.stringify`: exactly the eleven schema keys, in the constructor's
`keys` order (options.ts:607-619). -/
def recEntries (r : OptionsRec) : List (String × JsonVal) :=
  [("check", .bool r.check), ("config", configJson r.config),
   ("cwd", .str r.cwd), ("ext", .str r.ext.str),
   ("ignore", .arr r.ignore), ("indentWidth", .num r.indentWidth),
   ("lineWidth", .num r.lineWidth), ("proseWrap", .str r.proseWrap.str),
   ("semiColons", .bool r.semiColons), ("singleQuote", .bool r.singleQuote),
   ("useTabs", .bool r.useTabs)]

/-- JavaScript `String(v)` for the values at hand (arrays join with a
comma). -/
def jsValStr : JsonVal → String
  | .bool b => if b then "true" else "false"
  | .num (.int n) => toString n
  | .num .nan => "NaN"
  | .str s => s
  | .arr l => joinSep "," l

/-- The string a default `Array.prototype.sort` comparator sees for an
entry pair `[k, v]`: `String([k, v]) = k + "," + String(v)`. -/
def pairSortKey (p : String × JsonVal) : String :=
  p.1 ++ "," ++ jsValStr p.2

/-- Lexicographic comparison of character lists by code unit, the order
the default `Array.prototype.sort` comparator induces on the UTF-16
string conversions at hand. -/
def ltChars : List Char → List Char → Bool
  | [], [] => false
  | [], _ :: _ => true
  | _ :: _, [] => false
  | a :: as, b :: bs =>
    if a.toNat < b.toNat then true
    else if b.toNat < a.toNat then false
    else ltChars as bs

/-- JavaScript `<` on strings. -/
def strLt (a b : String) : Bool :=
  ltChars a.data b.data

/-- Stable insertion used to model the (stable, per ES2019) default sort. -/
def insertPair (p : String × JsonVal) :
    List (String × JsonVal) → List (String × JsonVal)
  | [] => [p]
  | q :: rest =>
    if strLt (pairSortKey p) (pairSortKey q) then p :: q :: rest
    else q :: insertPair p rest

/-- `Object.entries(canonical).sort()` (context.ts:167): default sort,
i.e. lexicographic on the string conversion of each `[key, value]`
pair. -/
def jsSortEntries : List (String × JsonVal) → List (String × JsonVal)
  | [] => []
  | p :: rest => insertPair p (jsSortEntries rest)

/-- Minimal JSON string escaping (the only characters requiring escapes
among the values at hand are the quote and the backslash). -/
def escapeChars : List Char → List Char
  | [] => []
  | c :: rest =>
    if c = '\"' then '\\' :: '\"' :: escapeChars rest
    else if c = '\\' then '\\' :: '\\' :: escapeChars rest
    else c :: escapeChars rest

/-- `JSON.stringify` string escaping, as a `String` function. -/
def escapeJson (s : String) : String :=
  ⟨escapeChars s.data⟩

/-- `JSON.stringify` of a value. -/
def stringifyJson : JsonVal → String
  | .bool b => if b then "true" else "false"
  | .num (.int n) => toString n
  | .num .nan => "null"
  | .str s => "\"" ++ escapeJson s ++ "\""
  | .arr l => "[" ++
      joinSep "," (l.map (fun s => "\"" ++ escapeJson s ++ "\"")) ++
      "]"

/-- `JSON.stringify` of the canonical (sorted) option object. -/
def stringifyEntries (l : List (String × JsonVal)) : String :=
  "\x7b" ++
    joinSep ","
      (l.map (fun p => "\"" ++ escapeJson p.1 ++ "\":" ++ stringifyJson p.2)) ++
    "\x7d"

/-- `Context.getCanonicalHash` (context.ts:159-174) applied to an already
merged `Options` instance: `JSON.parse(JSON.stringify(options))` invokes
`Options.toJSON`, i.e. `Options.normalize`; the resulting plain object
has exactly the eleven schema keys; its entries are sorted with the
default comparator, re-assembled, stringified and fed to the digest
together with the source text. -/
def getCanonicalHashRec (env : JsEnv) (opts : OptionsRec) (data : String) :
    Except JSError String :=
  match normalizeRec env opts with
  | .error e => .error e
  | .ok canonical =>
    .ok (env.digest [stringifyEntries (jsSortEntries (recEntries canonical)),
      data])

/-- Whether an `Except` computation succeeds (the JS call does not
throw). -/
def exOk {E A : Type} : Except E A → Bool
  | .ok _ => true
  | .error _ => false

/-- `Context.getCanonicalHash` on a caller-supplied override object:
`Options.merge(options ?? {}, this.options)` fills the missing schema
fields from the instance options (caller wins), and the result is hashed
as in `getCanonicalHashRec`. -/
def getCanonicalHash (env : JsEnv) (instOpts : OptionsRec) (data : String)
    (overrides : List OptField) : Except JSError String :=
  getCanonicalHashRec env (getOverride overrides instOpts) data

/-- Claim C10: assigning any JS number `x` to `indentWidth` or `lineWidth`
on an `Options` instance never throws — the setters are total functions
that coerce with `>>> 0` and clamp into the allowed range, so the stored
value is always in range (`[1, 255]` for `indentWidth`,
`[1, 2^32 - 1]` for `lineWidth`) — whereas `Options.normalize` accepts
exactly the inputs the setters store unchanged and raises a `RangeError`
or `TypeError` for the same out-of-range or non-integer inputs. -/
theorem claim_C10 (r : OptionsRec) (x : JsNum) :
    (setIndentWidth r x).indentWidth = .int (clampIndentWidth x) ∧
    1 ≤ clampIndentWidth x ∧ clampIndentWidth x ≤ 255 ∧
    (setLineWidth r x).lineWidth = .int (clampLineWidth x) ∧
    1 ≤ clampLineWidth x ∧ clampLineWidth x ≤ 2 ^ 32 - 1 ∧
    (exOk (normalizeIndentWidth x) = true ↔ x = .int (clampIndentWidth x)) ∧
    (exOk (normalizeLineWidth x) = true ↔ x = .int (clampLineWidth x)) := by
  refine ⟨rfl, ?_, ?_, rfl, ?_, ?_, ?_, ?_⟩
  · simp only [clampIndentWidth]; omega
  · simp only [clampIndentWidth]; omega
  · simp only [clampLineWidth]; omega
  · simp only [clampLineWidth]; omega
  · cases x with
    | nan => simp [normalizeIndentWidth, exOk]
    | int n =>
      simp only [normalizeIndentWidth, clampIndentWidth, toUint32,
        JsNum.int.injEq]
      by_cases hin : 1 ≤ n ∧ n ≤ 255
      · rw [if_pos hin]
        simp only [exOk, true_iff]
        omega
      · rw [if_neg hin]
        simp only [exOk, Bool.false_eq_true, false_iff]
        intro h
        exact absurd (by omega : 1 ≤ n ∧ n ≤ 255) hin
  · cases x with
    | nan => simp [normalizeLineWidth, exOk]
    | int n =>
      simp only [normalizeLineWidth, clampLineWidth, toUint32,
        JsNum.int.injEq]
      by_cases hin : 1 ≤ n ∧ n ≤ 2 ^ 32 - 1
      · rw [if_pos hin]
        simp only [exOk, true_iff]
        omega
      · rw [if_neg hin]
        simp only [exOk, Bool.false_eq_true, false_iff]
        intro h
        exact absurd (by omega : 1 ≤ n ∧ n ≤ 2 ^ 32 - 1) hin

/-- Property lookup is invariant under permutation of a duplicate-free
JS object: the JS engine would not even allow duplicate keys. -/
theorem findField_perm :
    ∀ {o1 o2 : List OptField}, o1.Perm o2 →
    (o1.map OptField.key).Nodup →
    ∀ k, findField o1 k = findField o2 k := by
  intro o1 o2 h
  induction h with
  | nil => intro _ _; rfl
  | cons x h ih =>
    intro hnd k
    simp only [List.map_cons] at hnd
    by_cases hx : x.key = k
    · simp [findField, hx]
    · simp only [findField, if_neg hx]
      exact ih hnd.of_cons k
  | swap x y l =>
    intro hnd k
    simp only [List.map_cons] at hnd
    have hxy : y.key ≠ x.key := by
      have h1 := (List.nodup_cons.mp hnd).1
      intro hh
      exact h1 (by simp [hh])
    by_cases hy : y.key = k <;> by_cases hx : x.key = k
    · exact absurd (hy.trans hx.symm) hxy
    · simp [findField, hy, hx]
    · simp [findField, hy, hx]
    · simp [findField, hy, hx]
  | trans h1 h2 ih1 ih2 =>
    intro hnd k
    refine (ih1 hnd k).trans (ih2 ?_ k)
    exact ((h1.map OptField.key).nodup_iff).mp hnd

/-- The merged option record depends only on the key/value mapping of the
override object, not on its insertion order. -/
theorem getOverride_eq_of_perm {o1 o2 : List OptField} (h : o1.Perm o2)
    (hnd : (o1.map OptField.key).Nodup) (base : OptionsRec) :
    getOverride o1 base = getOverride o2 base := by
  have hf : findField o1 = findField o2 := funext (findField_perm h hnd)
  simp only [getOverride, hf]

/-- Claim C4: for every source text and every pair of override objects
with the same fields and values in different insertion orders,
`getCanonicalHash` produces the same key; and any two calls whose merged
(defaulted) option records coincide produce the same key. -/
theorem claim_C4 (env : JsEnv) (inst : OptionsRec) (data : String)
    (o1 o2 : List OptField) :
    (o1.Perm o2 → (o1.map OptField.key).Nodup →
      getCanonicalHash env inst data o1 = getCanonicalHash env inst data o2) ∧
    (getOverride o1 inst = getOverride o2 inst →
      getCanonicalHash env inst data o1 = getCanonicalHash env inst data o2) := by
  constructor
  · intro hperm hnd
    unfold getCanonicalHash
    rw [getOverride_eq_of_perm hperm hnd]
  · intro hm
    unfold getCanonicalHash
    rw [hm]

/-- A concrete environment instantiation used by witnesses. -/
def witnessEnv : JsEnv where
  resolveCwd := id
  validConfigURL := fun _ => true
  digest := fun l => joinSep "|" l
  sanitizePath := id

/-- Witness for `claim_C4`: the same two overrides in either insertion
order hash identically. -/
theorem claim_C4_witness :
    getCanonicalHash witnessEnv defaultRec "const a = 1;"
        [.semiColons false, .useTabs true] =
      getCanonicalHash witnessEnv defaultRec "const a = 1;"
        [.useTabs true, .semiColons false] :=
  (claim_C4 witnessEnv defaultRec "const a = 1;"
      [.semiColons false, .useTabs true] [.useTabs true, .semiColons false]).1
    (by decide) (by decide)

/-!
## The formatting contexts (src/context.ts, src/fmt.ts, src/dprint.ts)
-/

/-- Flag emission for a (normalized, hence truthy) width value:
`if (options.indentWidth) flags.push("--indent-width", String(...))`. -/
def widthFlag (flag : String) : JsNum → List String
  | .int i => if i = 0 then [] else [flag, toString i]
  | .nan => []

/-- `Options.convertToFlags` (options.ts:463-489): normalize, then derive
the `deno fmt` flag list. -/
def convertToFlags (env : JsEnv) (input : OptionsRec) :
    Except JSError (List String) :=
  match normalizeRec env input with
  | .error e => .error e
  | .ok o =>
    .ok ((if o.check then ["--check"] else []) ++
      (match o.config with
       | .bool false => ["--no-config"]
       | .path s => ["--config", s]
       | .bool true => []) ++
      ["--ext", o.ext.str] ++
      (if o.ignore.isEmpty then []
       else ["--ignore=" ++ joinSep "," o.ignore]) ++
      widthFlag "--indent-width" o.indentWidth ++
      widthFlag "--line-width" o.lineWidth ++
      ["--prose-wrap", o.proseWrap.str] ++
      (if o.semiColons then [] else ["--no-semicolons"]) ++
      (if o.singleQuote then ["--single-quote"] else []) ++
      (if o.useTabs then ["--use-tabs"] else []))

/-- The per-call override configuration built by `Options.convertToDprint`
(options.ts:497-566). -/
structure DprintOpts where
  ext : String
  check : Bool
  useTabs : Bool
  semiColons : String
  indentWidth : Option Int
  lineWidth : Option Int
  quoteStyle : String
  jsxQuoteStyle : Option String
  textWrap : String
  noConfig : Bool
  configPath : Option String
  cwd : Option String
  ignore : List String
  deriving Repr, DecidableEq

/-- `Options.convertToDprint` (options.ts:497-566) on a well-typed record
(no validation, only translation; with `Options.filesOnly = false` the
path sanitisation cannot throw). -/
def convertToDprint (env : JsEnv) (r : OptionsRec) : DprintOpts where
  ext := r.ext.str
  check := r.check
  useTabs := r.useTabs
  semiColons := if r.semiColons then "always" else "asi"
  indentWidth := match r.indentWidth with
    | .int n => if 1 ≤ n ∧ n ≤ 255 then some n else none
    | .nan => none
  lineWidth := match r.lineWidth with
    | .int n => if 1 ≤ n ∧ n ≤ 2 ^ 32 - 1 then some n else none
    | .nan => none
  quoteStyle := if r.singleQuote then "preferSingle" else "preferDouble"
  jsxQuoteStyle :=
    if r.ext = .ts ∨ r.ext = .tsx ∨ r.ext = .js ∨ r.ext = .jsx then
      some (if r.singleQuote then "preferSingle" else "preferDouble")
    else none
  textWrap := r.proseWrap.str
  noConfig := r.config = .bool false
  configPath := match r.config with
    | .path s => if env.sanitizePath s = "" then none else some (env.sanitizePath s)
    | .bool _ => none
  cwd := if r.cwd = "" then none
    else if env.sanitizePath r.cwd = "" then none
    else some (env.sanitizePath r.cwd)
  ignore := r.ignore.map env.sanitizePath

/-- The message of a JS error (`err.message`). -/
def JSError.msg : JSError → String
  | .referenceError m => m
  | .rangeError m => m
  | .typeError m => m
  | .error m => m
  | .permissionDenied m => m

/-- `CommandContext.#hasErrors` (context.ts:524-529): output starting with
`"Checked "` is a success report; otherwise the regex
`/^(?:error:(?:...)?|Not formatted(?: stdin)?)/dim` asks whether some
line starts, case-insensitively, with `"error:"` or `"not formatted"`
(the optional groups never affect whether the regex matches). -/
def hasErrors (s : String) : Bool :=
  if strStartsWith s "Checked " then false
  else (splitNl s.data).any (fun line =>
    isPrefixChars "error:".data (line.map lowerChar) ||
    isPrefixChars "not formatted".data (line.map lowerChar))

/-- The observable behaviour of a `deno fmt` subprocess invocation. -/
structure ProcResult where
  code : Int
  stdout : String
  stderr : String
  deriving Repr, DecidableEq

/-- The CLI execution environment: run permission, and the behaviour of
the external process — for the streaming path as a function of the
argument list and the text piped to stdin, and for the blocking path as a
function of the argument list and of the temp-file content, additionally
yielding the file content after the process exits (the blocking path
reads the formatted result back from the file).  A parameter of the
embedding: the theorems hold for every process behaviour. -/
structure CliEnv where
  js : JsEnv
  runGranted : Bool
  run : List String → String → ProcResult
  runFile : List String → String → ProcResult × String
  tmpPath : String

/-- The mutable state of a formatting context: its string cache and the
context's disposal flag. -/
structure CtxState where
  cache : LRUState String
  disposed : Bool
  deriving Repr, DecidableEq

/-- A fresh context state with the default cache configuration of
`Context.#config` (capacity 100, TTL 30 minutes; context.ts:18-33). -/
def freshCtx : CtxState :=
  { cache := mkLRU String 100 1800000, disposed := false }

/-- `CommandContext.format` (context.ts:364-445), the streaming path.
Requests run permission, checks disposal, merges the override object over
the instance options (`Options.merge(overrides ?? new Options(),
this.options)`), computes the canonical hash and consults the cache
(`output === undefined` detects a miss — an empty cached string is a
hit).  On a miss the options are converted to flags, `deno fmt` is
spawned with `[fmt, ...flags, "-"]` and the input piped to stdin; a
non-zero exit raises `"[fmt] Process exited with code N."`
unconditionally (`#hasErrors` only selects the `cause`).  On success the
stdout is cached and returned.  The `Nat` in the result counts the
subprocess spawns performed by the call. -/
def cliFormat (env : CliEnv) (inst : OptionsRec) (st : CtxState)
    (input : String) (overrides : List OptField) (now : Nat) :
    Except JSError (String × CtxState × Nat) :=
  if env.runGranted = false then
    .error (.permissionDenied "[fmt] Run permission required.") else
  if st.disposed then
    .error (.referenceError "Formatter has been disposed") else
  let options := getOverride overrides inst
  match getCanonicalHashRec env.js options input with
  | .error e => .error e
  | .ok hash =>
    match lruGet st.cache hash now with
    | .error e => .error e
    | .ok (some output, cache1, _) =>
      .ok (output, { st with cache := cache1 }, 0)
    | .ok (none, cache1, _) =>
      match convertToFlags env.js options with
      | .error e => .error e
      | .ok flags =>
        let result := env.run (["fmt"] ++ flags ++ ["-"]) input
        if result.code = 0 then
          match lruSet cache1 hash result.stdout now with
          | .error e => .error e
          | .ok (cache2, _) =>
            .ok (result.stdout, { st with cache := cache2 }, 1)
        else
          .error (.error
            ("[fmt] Process exited with code " ++ toString result.code ++ "."))

/-- `CommandContext.formatSync` (context.ts:447-502), the blocking path:
identical shape, but the input is written to a temp file, the process is
invoked on that file, and the output is the file content read back after
a zero exit. -/
def cliFormatSync (env : CliEnv) (inst : OptionsRec) (st : CtxState)
    (input : String) (overrides : List OptField) (now : Nat) :
    Except JSError (String × CtxState × Nat) :=
  if env.runGranted = false then
    .error (.permissionDenied "[fmt] Run permission required.") else
  if st.disposed then
    .error (.referenceError "Formatter has been disposed") else
  let options := getOverride overrides inst
  match getCanonicalHashRec env.js options input with
  | .error e => .error e
  | .ok hash =>
    match lruGet st.cache hash now with
    | .error e => .error e
    | .ok (some output, cache1, _) =>
      .ok (output, { st with cache := cache1 }, 0)
    | .ok (none, cache1, _) =>
      match convertToFlags env.js options with
      | .error e => .error e
      | .ok flags =>
        let r := env.runFile (["fmt"] ++ flags ++ [env.tmpPath]) input
        if r.1.code = 0 then
          match lruSet cache1 hash r.2 now with
          | .error e => .error e
          | .ok (cache2, _) => .ok (r.2, { st with cache := cache2 }, 1)
        else
          .error (.error
            ("[fmt] Process exited with code " ++ toString r.1.code ++ "."))

/-- `Context.check` (context.ts:121-123) for the CLI context, which does
not override it: `(await this.format(input, overrides)) === input`. -/
def cliCheck (env : CliEnv) (inst : OptionsRec) (st : CtxState)
    (input : String) (overrides : List OptField) (now : Nat) :
    Except JSError (Bool × CtxState × Nat) :=
  match cliFormat env inst st input overrides now with
  | .error e => .error e
  | .ok (out, st1, n) => .ok (out == input, st1, n)

/-- `Context.checkSync` (context.ts:132-134) for the CLI context:
`this.formatSync(input, overrides) === input`. -/
def cliCheckSync (env : CliEnv) (inst : OptionsRec) (st : CtxState)
    (input : String) (overrides : List OptField) (now : Nat) :
    Except JSError (Bool × CtxState × Nat) :=
  match cliFormatSync env inst st input overrides now with
  | .error e => .error e
  | .ok (out, st1, n) => .ok (out == input, st1, n)

/-- The behaviour of a dprint wasm plugin module for one `format()`
invocation, after the host has marshalled the override config, file path
and file text into the shared buffer: the numeric return of `format()`,
the string served by `get_formatted_text()` and the string served by
`get_error_text()`. -/
structure WasmResp where
  code : Int
  formatted : String
  errorText : String
  deriving Repr, DecidableEq

/-- An instantiated plugin module (external wasm binary): its schema
version, its response to a format invocation as a function of the
override configuration, the synthetic file path and the file text, and
its first reported file extension (used by `getSyntheticFileName`).
A parameter of the embedding.  (The one-time `setConfigIfNotSet`
handshake and the chunked string marshalling of `#sendString` /
`#receiveString` sit below this interface.) -/
structure WasmPlugin where
  schemaVersion : Int
  run : Option DprintOpts → String → String → WasmResp
  fileExtension : String

/-- The response-code dispatch of `dprint.formatText` (options.ts:2425-2435). -/
def dprintInterpFormat (fileText : String) (r : WasmResp) :
    Except JSError String :=
  if r.code = 0 then .ok fileText
  else if r.code = 1 then .ok r.formatted
  else if r.code = 2 then .error (.error r.errorText)
  else .error (.error ("Unexpected response code: " ++ toString r.code))

/-- The response-code dispatch of `dprint.checkText` (options.ts:2457-2467). -/
def dprintInterpCheck (r : WasmResp) : Except JSError Bool :=
  if r.code = 0 then .ok true
  else if r.code = 1 then .ok false
  else if r.code = 2 then .error (.error r.errorText)
  else .error (.error ("Unexpected response code: " ++ toString r.code))

/-- `dprint.formatText` (options.ts:2405-2436): an override config can only
be sent to schema-version-3 plugins; then the path and text are sent and
the numeric return of `format()` is interpreted. -/
def dprintFormatText (p : WasmPlugin) (filePath fileText : String)
    (overrideConfig : Option DprintOpts) : Except JSError String :=
  if overrideConfig.isSome ∧ p.schemaVersion = 2 then
    .error (.error "Cannot set the override configuration for this old plugin.")
  else dprintInterpFormat fileText (p.run overrideConfig filePath fileText)

/-- `dprint.checkText` (options.ts:2438-2468). -/
def dprintCheckText (p : WasmPlugin) (filePath fileText : String)
    (overrideConfig : Option DprintOpts) : Except JSError Bool :=
  if overrideConfig.isSome ∧ p.schemaVersion = 2 then
    .error (.error "Cannot set the override configuration for this old plugin.")
  else dprintInterpCheck (p.run overrideConfig filePath fileText)

/-- `dprint.getSyntheticFileName` (options.ts:2494-2497). -/
def syntheticFileName (p : WasmPlugin) : String :=
  "file." ++ p.fileExtension

/-- `dprint.format` (options.ts:2399-2403): format under the synthetic
file name. -/
def dprintFormat (p : WasmPlugin) (text : String) (cfg : Option DprintOpts) :
    Except JSError String :=
  dprintFormatText p (syntheticFileName p) text cfg

/-- `dprint.check` (options.ts:2393-2397). -/
def dprintCheck (p : WasmPlugin) (text : String) (cfg : Option DprintOpts) :
    Except JSError Bool :=
  dprintCheckText p (syntheticFileName p) text cfg

/-- `WasmContext.format` (context.ts:219-240) (and `formatSync`, whose
body is identical apart from the synchronous plugin acquisition).  Note:
`Options.merge(new Options(overrides ?? {}), this.options)` first fills
every schema key of the override object with the *defaults* (the
`Options` constructor spread), so the subsequent merge with the instance
options is a no-op.  The cache test is `if (!cached)`: a cached *empty*
string is treated like a miss and re-invokes the plugin.  A plugin error
whose message starts with `"Unexpected "` is swallowed and the input
returned *without caching*.  The `Nat` counts plugin `format`
invocations. -/
def wasmFormatMiss (p : WasmPlugin) (input : String) (options : DprintOpts)
    (st : CtxState) (cache1 : LRUState String) (hash : String) (now : Nat) :
    Except JSError (String × CtxState × Nat) :=
  match dprintFormat p input (some options) with
  | .ok out =>
    match lruSet cache1 hash out now with
    | .error e => .error e
    | .ok (cache2, _) => .ok (out, { st with cache := cache2 }, 1)
  | .error e =>
    if strStartsWith e.msg "Unexpected " then
      .ok (input, { st with cache := cache1 }, 1)
    else .error e

/-- The entry point of `WasmContext.format`; `wasmFormatMiss` above is its
plugin branch, taken on a cache miss and also on a cached empty string. -/
def wasmFormat (env : JsEnv) (p : WasmPlugin) (st : CtxState)
    (input : String) (overrides : List OptField) (now : Nat) :
    Except JSError (String × CtxState × Nat) :=
  if st.disposed then
    .error (.referenceError "Formatter has been disposed") else
  let merged := getOverride overrides defaultRec
  let options := convertToDprint env merged
  match getCanonicalHashRec env merged input with
  | .error e => .error e
  | .ok hash =>
    match lruGet st.cache hash now with
    | .error e => .error e
    | .ok (some cached, cache1, _) =>
      if cached = "" then wasmFormatMiss p input options st cache1 hash now
      else .ok (cached, { st with cache := cache1 }, 0)
    | .ok (none, cache1, _) => wasmFormatMiss p input options st cache1 hash now

/-- `WasmContext.check` (context.ts:265-280) (and `checkSync`, identical
apart from plugin acquisition): checks directly through the plugin,
without consulting the cache; an `"Unexpected "`-prefixed plugin error is
converted to `false`.  Unlike `format`, the merge here is
`Options.merge(overrides ?? new Options(), this.options)`, so a plain
override object is filled from the *instance* options. -/
def wasmCheck (env : JsEnv) (p : WasmPlugin) (inst : OptionsRec)
    (st : CtxState) (input : String) (overrides : List OptField) :
    Except JSError (Bool × CtxState × Nat) :=
  if st.disposed then
    .error (.referenceError "Formatter has been disposed") else
  let merged := getOverride overrides inst
  let options := convertToDprint env merged
  match dprintCheck p input (some options) with
  | .ok b => .ok (b, st, 1)
  | .error e =>
    if strStartsWith e.msg "Unexpected " then .ok (false, st, 1)
    else .error e

section CacheHitLemmas

variable {T : Type}

theorem lookupEntry_updateEntry_self {l : List (String × T × Nat)}
    {k : String} (h : (lookupEntry l k).isSome = true) (p : T × Nat) :
    lookupEntry (updateEntry l k p) k = some p := by
  induction l with
  | nil => simp [lookupEntry] at h
  | cons e rest ih =>
    by_cases he : e.1 = k
    · simp [updateEntry, he, lookupEntry]
    · simp only [lookupEntry, he, if_false] at h
      simp [updateEntry, he, lookupEntry, ih h]

theorem lookupEntry_setEntry_self (l : List (String × T × Nat)) (k : String)
    (p : T × Nat) : lookupEntry (setEntry l k p) k = some p := by
  by_cases h : (lookupEntry l k).isSome = true
  · simp only [setEntry, h, if_true]
    exact lookupEntry_updateEntry_self h p
  · have hn : lookupEntry l k = none := by
      cases hl : lookupEntry l k
      · rfl
      · rw [hl] at h
        simp at h
    simp only [setEntry, hn, Option.isSome_none, Bool.false_eq_true, if_false]
    rw [lookupEntry_append_of_none hn]
    simp [lookupEntry]

/-- Any successful `get` happens on a non-disposed cache and preserves
the disposal flag, TTL and capacity. -/
theorem lruGet_ok_fields {c c1 : LRUState T} {k : String} {now : Nat}
    {ro : Option T} {evs : List (RemoveEv T)}
    (h : lruGet c k now = .ok (ro, c1, evs)) :
    c.disposed = false ∧ c1.disposed = false ∧ c1.timeout = c.timeout ∧
    c1.capacity = c.capacity := by
  rw [lruGet] at h
  split at h
  · simp at h
  next hd =>
    have hd2 : c.disposed = false := by
      cases hcd : c.disposed
      · rfl
      · exact absurd hcd hd
    refine ⟨hd2, ?_⟩
    split at h
    · simp only [Except.ok.injEq, Prod.mk.injEq] at h
      obtain ⟨-, hc, -⟩ := h
      subst hc
      exact ⟨hd2, rfl, rfl⟩
    next v ts hl =>
      split at h
      · simp only [Except.ok.injEq, Prod.mk.injEq] at h
        obtain ⟨-, hc, -⟩ := h
        subst hc
        exact ⟨hd2, rfl, rfl⟩
      · simp only [Except.ok.injEq, Prod.mk.injEq] at h
        obtain ⟨-, hc, -⟩ := h
        subst hc
        exact ⟨hd2, rfl, rfl⟩

/-- A `get` hit comes from the fresh path: the entry is present with its
timestamp refreshed to `now`, and no `onremove` fires. -/
theorem lruGet_hit_lookup {c c1 : LRUState T} {k : String} {now : Nat}
    {v : T} {evs : List (RemoveEv T)}
    (h : lruGet c k now = .ok (some v, c1, evs)) :
    lookupEntry c1.entries k = some (v, now) ∧ evs = [] := by
  rw [lruGet] at h
  split at h
  · simp at h
  next hd =>
    split at h
    · simp at h
    next v0 ts hl =>
      split at h
      · simp at h
      · simp only [Except.ok.injEq, Prod.mk.injEq, Option.some.injEq] at h
        obtain ⟨hv, hc, he⟩ := h
        refine ⟨?_, he.symm⟩
        rw [← hc, ← hv]
        exact lookupEntry_updateEntry_self (by rw [hl]; rfl) (v0, now)

/-- A successful `set` on a cache with positive capacity stores the entry
with the current timestamp and preserves the flag, TTL and capacity. -/
theorem lruSet_ok_props {c c1 : LRUState T} {k : String} {v : T} {now : Nat}
    {evs : List (RemoveEv T)}
    (h : lruSet c k v now = .ok (c1, evs)) (hcap : 1 ≤ c.capacity) :
    lookupEntry c1.entries k = some (v, now) ∧ c.disposed = false ∧
    c1.disposed = false ∧ c1.timeout = c.timeout ∧ c1.capacity = c.capacity := by
  rw [lruSet] at h
  split at h
  · simp at h
  next hd =>
    have hd2 : c.disposed = false := by
      cases hcd : c.disposed
      · rfl
      · exact absurd hcd hd
    rw [if_neg (by omega)] at h
    simp only [Except.ok.injEq, Prod.mk.injEq] at h
    obtain ⟨hc, -⟩ := h
    subst hc
    exact ⟨lookupEntry_setEntry_self _ k (v, now), hd2, hd2, rfl, rfl⟩

/-- A fresh lookup hit on a non-disposed cache. -/
theorem lruGet_fresh_hit {c : LRUState T} {k : String} {v : T} {ts now : Nat}
    (hd : c.disposed = false) (hl : lookupEntry c.entries k = some (v, ts))
    (hfresh : ¬ now - ts > c.timeout) :
    lruGet c k now =
      .ok (some v, { c with entries := updateEntry c.entries k (v, now) },
        []) := by
  rw [lruGet, hd]
  simp [hl, hfresh]

end CacheHitLemmas

/-- Claim C7: for every plugin module (of the current schema version 3)
and every string sent to it, the numeric return of the module's `format`
entry point is interpreted by `dprint.formatText` / `dprint.checkText`
as: `0` = unchanged (return the original text / `true` for check);
`1` = changed (fetch and return the formatted text / `false` for check);
`2` = error (fetch and raise the error text); anything else raises
unconditionally as a protocol violation. -/
theorem claim_C7 (p : WasmPlugin) (path text : String)
    (cfg : Option DprintOpts) (hschema : p.schemaVersion = 3) :
    ((p.run cfg path text).code = 0 →
      dprintFormatText p path text cfg = .ok text ∧
      dprintCheckText p path text cfg = .ok true) ∧
    ((p.run cfg path text).code = 1 →
      dprintFormatText p path text cfg = .ok (p.run cfg path text).formatted ∧
      dprintCheckText p path text cfg = .ok false) ∧
    ((p.run cfg path text).code = 2 →
      dprintFormatText p path text cfg =
        .error (.error (p.run cfg path text).errorText) ∧
      dprintCheckText p path text cfg =
        .error (.error (p.run cfg path text).errorText)) ∧
    ((p.run cfg path text).code ≠ 0 → (p.run cfg path text).code ≠ 1 →
      (p.run cfg path text).code ≠ 2 →
      dprintFormatText p path text cfg =
        .error (.error ("Unexpected response code: " ++
          toString (p.run cfg path text).code)) ∧
      dprintCheckText p path text cfg =
        .error (.error ("Unexpected response code: " ++
          toString (p.run cfg path text).code))) := by
  have hs : ¬ (cfg.isSome ∧ p.schemaVersion = 2) := by
    rintro ⟨-, h2⟩
    rw [hschema] at h2
    exact absurd h2 (by decide)
  refine ⟨?_, ?_, ?_, ?_⟩
  · intro h0
    rw [dprintFormatText, dprintCheckText, if_neg hs, if_neg hs,
      dprintInterpFormat, dprintInterpCheck]
    simp [h0]
  · intro h1
    rw [dprintFormatText, dprintCheckText, if_neg hs, if_neg hs,
      dprintInterpFormat, dprintInterpCheck]
    simp [h1]
  · intro h2
    rw [dprintFormatText, dprintCheckText, if_neg hs, if_neg hs,
      dprintInterpFormat, dprintInterpCheck]
    simp [h2]
  · intro h0 h1 h2
    rw [dprintFormatText, dprintCheckText, if_neg hs, if_neg hs,
      dprintInterpFormat, dprintInterpCheck]
    simp [h0, h1, h2]

/-- A plugin that reports a change for every input. -/
def pluginChanged : WasmPlugin :=
  { schemaVersion := 3, run := fun _ _ _ => ⟨1, "out\n", ""⟩,
    fileExtension := "ts" }

/-- Witness for `claim_C7`: a status-1 response makes `formatText` fetch
the formatted text and `checkText` report `false`. -/
theorem claim_C7_witness :
    dprintFormatText pluginChanged "file.ts" "in" none =
      .ok (pluginChanged.run none "file.ts" "in").formatted ∧
    dprintCheckText pluginChanged "file.ts" "in" none = .ok false :=
  (claim_C7 pluginChanged "file.ts" "in" none rfl).2.1 rfl

/-- The process behaviour of `deno fmt --check` on unformatted stdin:
exit code 1 with the "not formatted" markers on stdout/stderr. -/
def notFormattedEnv : CliEnv where
  js := witnessEnv
  runGranted := true
  run := fun _ _ =>
    { code := 1, stdout := "Not formatted stdin\n",
      stderr := "error: Found 1 not formatted file\n" }
  runFile := fun _ s =>
    ({ code := 1, stdout := "",
       stderr := "error: Found 1 not formatted file\n" }, s)
  tmpPath := "/tmp/fmt.ts"

/-- Claim C3 (code bug): in check mode (`check: true`, so the spawned
command is `deno fmt --check -`), when the process exits non-zero with
output matching the "not formatted" marker, `CommandContext.format`
still throws `"[fmt] Process exited with code 1."` — `#hasErrors`
recognises the marker (first two conjuncts) but its result only selects
the error's `cause`; no code path converts the marked non-zero exit into
the boolean `false` that the claim (and the library's own option
documentation and check tests) promise.  `check` propagates the same
exception. -/
theorem claim_C3 :
    hasErrors "Not formatted stdin\n" = true ∧
    hasErrors "error: Found 1 not formatted file\n" = true ∧
    convertToFlags witnessEnv (getOverride [.check true] defaultRec) =
      .ok ["--check", "--ext", "ts", "--indent-width", "2",
           "--line-width", "80", "--prose-wrap", "always"] ∧
    cliFormat notFormattedEnv defaultRec freshCtx "const a=1" [.check true] 0 =
      .error (.error "[fmt] Process exited with code 1.") ∧
    cliCheck notFormattedEnv defaultRec freshCtx "const a=1" [.check true] 0 =
      .error (.error "[fmt] Process exited with code 1.") := by
  exact ⟨rfl, rfl, rfl, rfl, rfl⟩

/-- A `set` on a non-disposed cache always succeeds. -/
theorem lruSet_isOk {T : Type} {c : LRUState T} (hd : c.disposed = false)
    (k : String) (v : T) (now : Nat) :
    ∃ c2 evs2, lruSet c k v now = .ok (c2, evs2) := by
  rw [lruSet, hd]
  simp only [Bool.false_eq_true, if_false]
  by_cases hc : c.capacity ≤ 0
  · exact ⟨c, [], by rw [if_pos hc]⟩
  · exact ⟨_, _, by rw [if_neg hc]⟩

/-- A plugin whose format entry point reports an error (status 2) whose
error text is a parse error, exactly the `"Unexpected ..."` messages the
contexts anticipate (context.ts:230-236, 273-279). -/
def pluginParseErr : WasmPlugin :=
  { schemaVersion := 3,
    run := fun _ _ _ => ⟨2, "", "Unexpected token at eof"⟩,
    fileExtension := "ts" }

/-- Claim C2, counterexample.  The claim states that for both backends,
`check(t, o) = true ⟺ format(t, o) = t`.  On the WASM backend a plugin
parse error (message starting with `"Unexpected "`) is swallowed
differently by the two methods: `format` returns the input unchanged
(successfully), while `check` returns `false` — so `format(t) = t` holds
and `check(t)` is `false`, refuting the equivalence at this input. -/
theorem claim_C2_counterexample :
    (wasmFormat witnessEnv pluginParseErr freshCtx "const a=1" [] 0).toOption.map
        (fun r => (r.1, r.2.2)) = some ("const a=1", 1) ∧
    (wasmCheck witnessEnv pluginParseErr defaultRec freshCtx
        "const a=1" []).toOption.map (fun r => (r.1, r.2.2)) =
      some (false, 1) :=
  ⟨rfl, rfl⟩

/-- Claim C2, amended: on the CLI backend (both calling conventions),
`check(t, o)` is by definition `format(t, o) === t`: whenever `format`
succeeds with output `out`, `check` succeeds with `out == t` (and errors
propagate identically).  On the WASM backend, `check` consults the
plugin directly; on a cache miss, for a schema-3 plugin whose response
is "unchanged", or "changed" with a formatted text different from the
input, `check(t, o) = true ⟺ format(t, o) = t` still holds; the
equivalence fails when the plugin raises a parse error (see the
counterexample). -/
theorem claim_C2 :
    (∀ (env : CliEnv) (inst : OptionsRec) (st : CtxState) (input : String)
       (o : List OptField) (now : Nat) (out : String) (st1 : CtxState)
       (n : Nat),
       cliFormat env inst st input o now = .ok (out, st1, n) →
       cliCheck env inst st input o now = .ok (out == input, st1, n)) ∧
    (∀ (env : CliEnv) (inst : OptionsRec) (st : CtxState) (input : String)
       (o : List OptField) (now : Nat) (out : String) (st1 : CtxState)
       (n : Nat),
       cliFormatSync env inst st input o now = .ok (out, st1, n) →
       cliCheckSync env inst st input o now = .ok (out == input, st1, n)) ∧
    (∀ (env : JsEnv) (p : WasmPlugin) (st : CtxState) (input : String)
       (o : List OptField) (now : Nat) (hash : String)
       (c1 : LRUState String) (evs : List (RemoveEv String)),
       p.schemaVersion = 3 →
       getCanonicalHashRec env (getOverride o defaultRec) input = .ok hash →
       lruGet st.cache hash now = .ok (none, c1, evs) →
       ((p.run (some (convertToDprint env (getOverride o defaultRec)))
           (syntheticFileName p) input).code = 0 ∨
        ((p.run (some (convertToDprint env (getOverride o defaultRec)))
            (syntheticFileName p) input).code = 1 ∧
         (p.run (some (convertToDprint env (getOverride o defaultRec)))
            (syntheticFileName p) input).formatted ≠ input)) →
       ((wasmCheck env p defaultRec st input o).map (fun x => x.1) =
          .ok true ↔
        (wasmFormat env p st input o now).map (fun x => x.1) =
          .ok input)) := by
  refine ⟨?_, ?_, ?_⟩
  · intro env inst st input o now out st1 n h1
    rw [cliCheck, h1]
  · intro env inst st input o now out st1 n h1
    rw [cliCheckSync, h1]
  · intro env p st input o now hash c1 evs hschema hhash hget hcode
    have hguard : ¬ ((some (convertToDprint env (getOverride o
        defaultRec))).isSome ∧ p.schemaVersion = 2) := by
      rintro ⟨-, h2⟩
      rw [hschema] at h2
      exact absurd h2 (by decide)
    cases hstd : st.disposed with
    | true =>
      rw [wasmCheck, wasmFormat, hstd]
      simp [Except.map]
    | false =>
      have hc1d : c1.disposed = false := (lruGet_ok_fields hget).2.1
      rw [wasmCheck, wasmFormat, hstd]
      simp only [Bool.false_eq_true, if_false]
      simp only [hhash, hget]
      rw [dprintCheck, dprintCheckText, if_neg hguard, dprintInterpCheck]
      rw [wasmFormatMiss, dprintFormat, dprintFormatText, if_neg hguard,
        dprintInterpFormat]
      rcases hcode with h0 | ⟨h1, hne⟩
      · rw [if_pos h0, if_pos h0]
        obtain ⟨c2, evs2, hset⟩ := lruSet_isOk hc1d hash input now
        simp [hset, Except.map]
      · have h0 : ¬ (p.run (some (convertToDprint env (getOverride o
            defaultRec))) (syntheticFileName p) input).code = 0 := by
          rw [h1]; decide
        rw [if_neg h0, if_pos h1, if_neg h0, if_pos h1]
        obtain ⟨c2, evs2, hset⟩ := lruSet_isOk hc1d hash
          (p.run (some (convertToDprint env (getOverride o defaultRec)))
            (syntheticFileName p) input).formatted now
        simp [hset, hne, Except.map]

/-- The process behaviour of a well-behaved formatter: exit 0 and a
newline appended. -/
def okCliEnv : CliEnv where
  js := witnessEnv
  runGranted := true
  run := fun _ s => { code := 0, stdout := s ++ "\n", stderr := "" }
  runFile := fun _ s => ({ code := 0, stdout := "", stderr := "" }, s ++ "\n")
  tmpPath := "/tmp/fmt.ts"

/-- The context state after one CLI format of `"const a=1"`. -/
def w2state : CtxState :=
  match cliFormat okCliEnv defaultRec freshCtx "const a=1" [] 0 with
  | .ok r => r.2.1
  | .error _ => freshCtx

/-- Witness for `claim_C2`: a CLI format of an unformatted input, followed
by the definitional check comparison. -/
theorem claim_C2_witness :
    cliCheck okCliEnv defaultRec freshCtx "const a=1" [] 0 =
      .ok (("const a=1\n" == "const a=1"), w2state, 1) :=
  claim_C2.1 okCliEnv defaultRec freshCtx "const a=1" [] 0 "const a=1\n"
    w2state 1 rfl

/-- A CLI format whose cache holds a fresh entry for the canonical hash is
served from the cache: no subprocess spawn. -/
theorem cliFormat_hit {env : CliEnv} {inst : OptionsRec} {st : CtxState}
    {input : String} {o : List OptField} {now' : Nat} {hash out : String}
    {ts : Nat}
    (hrg : ¬ env.runGranted = false) (hstd : ¬ st.disposed = true)
    (hhash : getCanonicalHashRec env.js (getOverride o inst) input = .ok hash)
    (hd : st.cache.disposed = false)
    (hlook : lookupEntry st.cache.entries hash = some (out, ts))
    (hfresh : ¬ now' - ts > st.cache.timeout) :
    (cliFormat env inst st input o now').map (fun r => (r.1, r.2.2)) =
      .ok (out, 0) := by
  rw [cliFormat, if_neg hrg, if_neg hstd]
  simp only [hhash]
  have hhit := lruGet_fresh_hit hd hlook hfresh
  simp only [hhit]
  simp [Except.map]

/-- A WASM format whose cache holds a fresh *non-empty* entry for the
canonical hash is served from the cache: no plugin invocation. -/
theorem wasmFormat_hit {env : JsEnv} {p : WasmPlugin} {st : CtxState}
    {input : String} {o : List OptField} {now' : Nat} {hash out : String}
    {ts : Nat}
    (hstd : ¬ st.disposed = true)
    (hhash : getCanonicalHashRec env (getOverride o defaultRec) input =
      .ok hash)
    (hd : st.cache.disposed = false)
    (hlook : lookupEntry st.cache.entries hash = some (out, ts))
    (hfresh : ¬ now' - ts > st.cache.timeout)
    (hne : ¬ out = "") :
    (wasmFormat env p st input o now').map (fun r => (r.1, r.2.2)) =
      .ok (out, 0) := by
  rw [wasmFormat, if_neg hstd]
  simp only [hhash]
  have hhit := lruGet_fresh_hit hd hlook hfresh
  simp only [hhit]
  rw [if_neg hne]
  simp [Except.map]

/-- The plugin branch of `WasmContext.format`, when the plugin does not
throw (status 0 or 1) and the cache has positive capacity, stores the
returned text under the canonical hash with the current timestamp. -/
theorem wasmFormatMiss_caches {p : WasmPlugin} {input : String}
    {options : DprintOpts} {st : CtxState} {c1 : LRUState String}
    {hash : String} {now : Nat} {out : String} {st1 : CtxState} {n : Nat}
    (hschema : p.schemaVersion = 3)
    (hcode : (p.run (some options) (syntheticFileName p) input).code = 0 ∨
             (p.run (some options) (syntheticFileName p) input).code = 1)
    (hcap : 1 ≤ c1.capacity)
    (h : wasmFormatMiss p input options st c1 hash now = .ok (out, st1, n)) :
    lookupEntry st1.cache.entries hash = some (out, now) ∧
    st1.cache.disposed = false ∧ st1.cache.timeout = c1.timeout ∧
    st1.cache.capacity = c1.capacity ∧ st1.disposed = st.disposed := by
  have hguard : ¬ ((some options).isSome = true ∧ p.schemaVersion = 2) := by
    rintro ⟨-, h2⟩
    rw [hschema] at h2
    exact absurd h2 (by decide)
  rw [wasmFormatMiss, dprintFormat, dprintFormatText, if_neg hguard,
    dprintInterpFormat] at h
  rcases hcode with h0 | h1
  · rw [if_pos h0] at h
    cases hset : lruSet c1 hash input now with
    | error e => simp only [hset] at h; simp at h
    | ok r2 =>
      obtain ⟨c2, evs2⟩ := r2
      simp only [hset, Except.ok.injEq, Prod.mk.injEq] at h
      obtain ⟨ho, hst1, -⟩ := h
      subst ho
      subst hst1
      have props := lruSet_ok_props hset hcap
      exact ⟨props.1, props.2.2.1, props.2.2.2.1, props.2.2.2.2, rfl⟩
  · have h0 : ¬ (p.run (some options) (syntheticFileName p) input).code = 0 := by
      rw [h1]; decide
    rw [if_neg h0, if_pos h1] at h
    cases hset : lruSet c1 hash
        (p.run (some options) (syntheticFileName p) input).formatted now with
    | error e => simp only [hset] at h; simp at h
    | ok r2 =>
      obtain ⟨c2, evs2⟩ := r2
      simp only [hset, Except.ok.injEq, Prod.mk.injEq] at h
      obtain ⟨ho, hst1, -⟩ := h
      subst ho
      subst hst1
      have props := lruSet_ok_props hset hcap
      exact ⟨props.1, props.2.2.1, props.2.2.2.1, props.2.2.2.2, rfl⟩

/-- A plugin that reports "unchanged" for every input. -/
def pluginUnchanged : WasmPlugin :=
  { schemaVersion := 3, run := fun _ _ _ => ⟨0, "", ""⟩,
    fileExtension := "ts" }

set_option maxRecDepth 16384 in
/-- Claim C1, counterexample.  The claim states that after a successful
`format(t, o)`, an immediate second `format(t, o)` call does not invoke
the backend again.  On the WASM backend the cache test is `if (!cached)`,
so a cached *empty* result is treated as a miss: formatting the empty
string (which the plugin reports unchanged, so the result `""` is cached)
twice invokes the plugin on both calls — the composition below ends with
plugin-invocation count 1 for the *second* call instead of 0 (the output
is still identical, `""`). -/
theorem claim_C1_counterexample :
    (wasmFormat witnessEnv pluginUnchanged freshCtx "" [] 0).toOption.map
        (fun r => (r.1, r.2.2)) = some ("", 1) ∧
    ((wasmFormat witnessEnv pluginUnchanged freshCtx "" [] 0).bind
        (fun r => wasmFormat witnessEnv pluginUnchanged r.2.1 "" [] 0)).toOption.map
        (fun r => (r.1, r.2.2)) = some ("", 1) :=
  ⟨rfl, rfl⟩

/-- Claim C1, amended: if a `format(t, o)` call completes successfully on
a context whose cache has positive capacity, then a second `format(t, o)`
call within the TTL returns output identical to the first call's result,
and does not invoke the backend: unconditionally on the CLI backend
(whose cache test is `output === undefined`), and on the WASM backend
provided the first call's result is a non-empty string produced without a
swallowed plugin parse error (status 0 or 1; the WASM cache test
`if (!cached)` recomputes an empty cached result, and a swallowed
`"Unexpected ..."` error is returned without being cached). -/
theorem claim_C1 :
    (∀ (env : CliEnv) (inst : OptionsRec) (st : CtxState) (input : String)
       (o : List OptField) (now now' : Nat) (out : String) (st1 : CtxState)
       (n : Nat),
       cliFormat env inst st input o now = .ok (out, st1, n) →
       1 ≤ st.cache.capacity →
       now' - now ≤ st.cache.timeout →
       (cliFormat env inst st1 input o now').map (fun r => (r.1, r.2.2)) =
         .ok (out, 0)) ∧
    (∀ (env : JsEnv) (p : WasmPlugin) (st : CtxState) (input : String)
       (o : List OptField) (now now' : Nat) (out : String) (st1 : CtxState)
       (n : Nat),
       p.schemaVersion = 3 →
       wasmFormat env p st input o now = .ok (out, st1, n) →
       out ≠ "" →
       ((p.run (some (convertToDprint env (getOverride o defaultRec)))
           (syntheticFileName p) input).code = 0 ∨
        (p.run (some (convertToDprint env (getOverride o defaultRec)))
           (syntheticFileName p) input).code = 1) →
       1 ≤ st.cache.capacity →
       now' - now ≤ st.cache.timeout →
       (wasmFormat env p st1 input o now').map (fun r => (r.1, r.2.2)) =
         .ok (out, 0)) := by
  constructor
  · intro env inst st input o now now' out st1 n h hcap hfresh
    rw [cliFormat] at h
    by_cases hrg : env.runGranted = false
    · rw [if_pos hrg] at h
      simp at h
    rw [if_neg hrg] at h
    by_cases hstd : st.disposed = true
    · rw [if_pos hstd] at h
      simp at h
    rw [if_neg hstd] at h
    cases hhash : getCanonicalHashRec env.js (getOverride o inst) input with
    | error e => simp only [hhash] at h; simp at h
    | ok hash =>
      simp only [hhash] at h
      cases hget : lruGet st.cache hash now with
      | error e => simp only [hget] at h; simp at h
      | ok r =>
        obtain ⟨ro, c1, evs⟩ := r
        simp only [hget] at h
        have hfields := lruGet_ok_fields hget
        cases ro with
        | some out0 =>
          simp only [Except.ok.injEq, Prod.mk.injEq] at h
          obtain ⟨ho, hst1, -⟩ := h
          subst ho
          subst hst1
          have hlook := (lruGet_hit_lookup hget).1
          exact cliFormat_hit hrg hstd hhash hfields.2.1 hlook
            (by show ¬ now' - now > c1.timeout
                have := hfields.2.2.1
                omega)
        | none =>
          cases hflags : convertToFlags env.js (getOverride o inst) with
          | error e => simp only [hflags] at h; simp at h
          | ok flags =>
            simp only [hflags] at h
            by_cases hc0 : (env.run (["fmt"] ++ flags ++ ["-"]) input).code = 0
            · rw [if_pos hc0] at h
              cases hset : lruSet c1 hash
                  (env.run (["fmt"] ++ flags ++ ["-"]) input).stdout now with
              | error e => simp only [hset] at h; simp at h
              | ok r2 =>
                obtain ⟨c2, evs2⟩ := r2
                simp only [hset, Except.ok.injEq, Prod.mk.injEq] at h
                obtain ⟨ho, hst1, -⟩ := h
                subst ho
                subst hst1
                have props := lruSet_ok_props hset
                  (by have := hfields.2.2.2; omega)
                exact cliFormat_hit hrg hstd hhash props.2.2.1 props.1
                  (by show ¬ now' - now > c2.timeout
                      have h1 := props.2.2.2.1
                      have h2 := hfields.2.2.1
                      omega)
            · rw [if_neg hc0] at h
              simp at h
  · intro env p st input o now now' out st1 n hschema h hne hcode hcap hfresh
    rw [wasmFormat] at h
    by_cases hstd : st.disposed = true
    · rw [if_pos hstd] at h
      simp at h
    rw [if_neg hstd] at h
    cases hhash : getCanonicalHashRec env (getOverride o defaultRec) input with
    | error e => simp only [hhash] at h; simp at h
    | ok hash =>
      simp only [hhash] at h
      cases hget : lruGet st.cache hash now with
      | error e => simp only [hget] at h; simp at h
      | ok r =>
        obtain ⟨ro, c1, evs⟩ := r
        have hfields := lruGet_ok_fields hget
        have hc1cap : 1 ≤ c1.capacity := by
          have := hfields.2.2.2
          omega
        cases ro with
        | some cached =>
          simp only [hget] at h
          by_cases hcold : cached = ""
          · rw [if_pos hcold] at h
            have props := wasmFormatMiss_caches hschema hcode hc1cap h
            have hstd1 : ¬ st1.disposed = true := by
              rw [props.2.2.2.2]
              exact hstd
            exact wasmFormat_hit hstd1 hhash props.2.1 props.1
              (by have h1 := props.2.2.1
                  have h2 := hfields.2.2.1
                  omega) hne
          · rw [if_neg hcold] at h
            simp only [Except.ok.injEq, Prod.mk.injEq] at h
            obtain ⟨ho, hst1, -⟩ := h
            subst ho
            subst hst1
            have hlook := (lruGet_hit_lookup hget).1
            exact wasmFormat_hit
              (show ¬ ({ st with cache := c1 } : CtxState).disposed = true from
                hstd)
              hhash hfields.2.1 hlook
              (by show ¬ now' - now > c1.timeout
                  have := hfields.2.2.1
                  omega) hne
        | none =>
          simp only [hget] at h
          have props := wasmFormatMiss_caches hschema hcode hc1cap h
          have hstd1 : ¬ st1.disposed = true := by
            rw [props.2.2.2.2]
            exact hstd
          exact wasmFormat_hit hstd1 hhash props.2.1 props.1
            (by have h1 := props.2.2.1
                have h2 := hfields.2.2.1
                omega) hne

/-- The context state after one CLI format of `"const b=2"`. -/
def w1state : CtxState :=
  match cliFormat okCliEnv defaultRec freshCtx "const b=2" [] 0 with
  | .ok r => r.2.1
  | .error _ => freshCtx

/-- Witness for `claim_C1`: after a CLI format on a fresh context, the
immediate second call returns the identical output with zero subprocess
spawns. -/
theorem claim_C1_witness :
    (cliFormat okCliEnv defaultRec w1state "const b=2" [] 0).map
        (fun r => (r.1, r.2.2)) = .ok ("const b=2\n", 0) :=
  claim_C1.1 okCliEnv defaultRec freshCtx "const b=2" [] 0 0 "const b=2\n"
    w1state 1 rfl (by decide) (by decide)

end DenoFmt
